import Mathlib

/-!
# midjourney-downloader: the synchronisation pipeline of `main.go`

A shallow embedding of `recentJobs`, `fetchJobs`, `processJob` and
`downloadImage` together with the two regular expressions that guard job
identifiers and image file names.

Go strings that reach the pipeline come out of `json.Unmarshal`, which yields
valid UTF-8; they are embedded as lists of code points.
-/

namespace MJ

/-- A Go string, read as its sequence of code points. -/
abbrev Str := List Char

/-! ## Regular expressions (the fragment of RE2 syntax used in `processJob`) -/

/-- Abstract syntax of the regular expressions compiled by `regexp.MustCompile`
in `processJob`. `beginText` is `^` and `endText` is `$`, both without the
multi-line flag, so they only hold at the two ends of the whole text. -/
inductive Regex where
  | beginText : Regex
  | endText : Regex
  | lit (c : Char) : Regex
  | cls (ranges : List (Char × Char)) : Regex
  | seq (a b : Regex) : Regex
  | alt (a b : Regex) : Regex
  | rep (n : Nat) (a : Regex) : Regex
  | plus (a : Regex) : Regex
  deriving DecidableEq

/-- Membership of a code point in a bracket class given by inclusive ranges. -/
def inClass (ranges : List (Char × Char)) (c : Char) : Bool :=
  ranges.any fun r => decide (r.1.toNat ≤ c.toNat) && decide (c.toNat ≤ r.2.toNat)

/-- The matcher `f` applied `k` times in a row; every way of doing so yields
one remaining suffix. -/
def iter (f : Str → List Str) : Nat → Str → List Str
  | 0, s => [s]
  | k + 1, s => (f s).flatMap (iter f k)

/-- Backtracking matcher: all suffixes that remain after the expression has
matched a prefix of `s`. `n` is the length of the whole text, so the cursor is
at the beginning of the text exactly when `n` code points remain. -/
def Regex.run (n : Nat) : Regex → Str → List Str
  | .beginText, s => if s.length = n then [s] else []
  | .endText, s => if s.length = 0 then [s] else []
  | .lit c, s =>
    match s with
    | [] => []
    | x :: t => if x = c then [t] else []
  | .cls rs, s =>
    match s with
    | [] => []
    | x :: t => if inClass rs x then [t] else []
  | .seq a b, s => (Regex.run n a s).flatMap (Regex.run n b)
  | .alt a b, s => Regex.run n a s ++ Regex.run n b s
  | .rep k a, s => iter (Regex.run n a) k s
  | .plus a, s => (List.range (s.length + 1)).flatMap fun k => iter (Regex.run n a) (k + 1) s

/-- The method `(*Regexp).MatchString`: the text contains a match of the
expression starting at some offset. -/
def Regex.matchString (r : Regex) (s : Str) : Bool :=
  (List.range (s.length + 1)).any fun i => !(r.run s.length (s.drop i)).isEmpty

/-- The class `[0-9a-f]`. -/
def hexClass : Regex := .cls [('0', '9'), ('a', 'f')]

/-- The pattern of main.go line 358:
`^[0-9a-f]{8}-[0-9a-f]{4}-[0-9a-f]{4}-[0-9a-f]{4}-[0-9a-f]{12}$`. -/
def jobIDPattern : Regex :=
  .seq .beginText
    (.seq (.rep 8 hexClass) (.seq (.lit '-')
    (.seq (.rep 4 hexClass) (.seq (.lit '-')
    (.seq (.rep 4 hexClass) (.seq (.lit '-')
    (.seq (.rep 4 hexClass) (.seq (.lit '-')
    (.seq (.rep 12 hexClass) .endText)))))))))

/-- A literal word of at least one code point. -/
def Regex.word (c : Char) : Str → Regex
  | [] => .lit c
  | d :: t => .seq (.lit c) (Regex.word d t)

/-- The pattern of main.go line 391: `^[0-9_]+\.(png|jpg|jpeg|webp)$`. -/
def fnamePattern : Regex :=
  .seq .beginText
    (.seq (.plus (.cls [('0', '9'), ('_', '_')]))
    (.seq (.lit '.')
    (.seq (.alt (Regex.word 'p' ['n', 'g'])
            (.alt (Regex.word 'j' ['p', 'g'])
            (.alt (Regex.word 'j' ['p', 'e', 'g'])
                  (Regex.word 'w' ['e', 'b', 'p']))))
      .endText)))

/-- The expression `strings.Split(imgURL, "/")` for the one-character
separator: the pieces between the occurrences of `sep`. -/
def splitSep (sep : Char) : Str → List Str
  | [] => [[]]
  | c :: cs =>
    if c = sep then [] :: splitSep sep cs
    else
      match splitSep sep cs with
      | [] => [[c]]
      | h :: t => (c :: h) :: t

/-- The expression `strings.Split(imgURL, "/")[len(strings.Split(imgURL, "/"))-1]`
of main.go line 390. -/
def lastSegment (u : Str) : Str := (splitSep '/' u).getLastD []

/-! ## The world of the program: file system, log window, run-state flag -/

/-- Raw file and response contents. -/
abbrev Bytes := List UInt8

/-- The record `Job` of main.go lines 43-47. -/
structure Job where
  ID : Str
  EnqueueTime : Str
  ImagePaths : List Str
  deriving DecidableEq

/-- An entry of the file system. -/
inductive Node where
  | file (data : Bytes)
  | dir
  deriving DecidableEq

/-- How a call ends: it returns to its caller, or the process terminates
through `os.Exit` or through an uncaught `panic`. -/
inductive Outcome where
  | returned
  | exited (code : Nat)
  | panicked (err : Str)
  deriving DecidableEq

/-- The observable operations of a run, in the order they are issued.
`listJobs` is the GET of `fetchJobs`, `getImage` the GET of `downloadImage`;
both carry the body that came back, if one did. -/
inductive Event where
  | readFile (path : Str)
  | mkdirAll (path : Str)
  | mkdir (path : Str)
  | stat (path : Str)
  | writeFile (path : Str) (data : Bytes) (ok : Bool)
  | listJobs (url : Str) (page : Nat) (body : Option Bytes)
  | getImage (url : Str) (body : Option Bytes)
  deriving DecidableEq

/-- What the remote listing endpoint answers to `fetchJobs`: one of the three
error returns of main.go lines 326-346, or the body. -/
inductive ListingResult where
  | requestError (err : Str)
  | transportError (err : Str)
  | bodyError (err : Str)
  | body (data : Bytes)
  deriving DecidableEq

/-- Everything outside the program: the network, the faults of the disk and
the library functions whose code is not part of the repository. The first
argument of the oracles is the number of operations issued so far, so the
surroundings may answer differently at different times. -/
structure Env where
  /-- The variable `jobsType` of main.go line 39, assumed free of `%`. -/
  jobsType : Str
  /-- An external failure (permissions, full disk) of a write or mkdir. -/
  diskFault : Nat → Str → Option Str
  /-- The answer to `http.NewRequest`, `Do` and `io.ReadAll` of `fetchJobs`. -/
  listing : Nat → Str → Str → ListingResult
  /-- The answer to `http.Get` and `io.ReadAll` of `downloadImage`. -/
  image : Nat → Str → Except Str Bytes
  /-- The call `json.Marshal(job)`. -/
  jsonMarshal : Job → Except Str Bytes
  /-- The call `json.Unmarshal(jobs, &jobArray)` on a non-empty input. -/
  jsonDecode : Bytes → Except Str (List Job)
  /-- The conversion `string(b)` of the bytes of a credential file. -/
  text : Bytes → Str

/-- The state the program acts on. `activeJob` is the global of main.go line 40,
`log` the lines handed to `logToWindow`, `trace` the operations issued so far,
`calls` the jobs `processJob` has been invoked on (bookkeeping only), `tick`
the number of operations issued. -/
structure World where
  fs : Str → Option Node
  activeJob : Bool
  log : List Str
  trace : List Event
  calls : List Job
  tick : Nat

/-- Record one operation. -/
def World.emit (w : World) (e : Event) : World :=
  { w with trace := w.trace ++ [e], tick := w.tick + 1 }

/-- The function `logToWindow` (main.go lines 218-222); `logTextArea` is set in
`main` before any run can start, so a line is always appended. -/
def logToWindow (message : Str) (w : World) : World :=
  { w with log := w.log ++ [message] }

/-- The file system `fs` with the entry at `path` replaced. -/
def setPath (fs : Str → Option Node) (path : Str) (n : Option Node) : Str → Option Node :=
  fun q => if q = path then n else fs q

/-- The directory part of a path: what precedes its last `/`. -/
def parentDir : Str → Option Str
  | [] => none
  | c :: cs =>
    match parentDir cs with
    | some d => some (c :: d)
    | none => if c = '/' then some [] else none

/-- The directory that is to hold `path` exists; a path without `/` lies in
the working directory. -/
def parentOK (fs : Str → Option Node) (path : Str) : Bool :=
  match parentDir path with
  | none => true
  | some d => decide (fs d = some Node.dir)

/-- The error text of a failed open. -/
def openError (path : Str) : Str :=
  "open ".toList ++ path ++ ": no such file or directory".toList

/-- The call `os.Stat(path)`: the entry, when there is one. -/
def osStat (path : Str) (w : World) : Option Node × World :=
  (w.fs path, w.emit (.stat path))

/-- The call `os.ReadFile(path)`. -/
def osReadFile (path : Str) (w : World) : Except Str Bytes × World :=
  match w.fs path with
  | some (.file d) => (.ok d, w.emit (.readFile path))
  | _ => (.error (openError path), w.emit (.readFile path))

/-- The world after `data` has been written to `path`. -/
def World.stored (w : World) (path : Str) (data : Bytes) : World :=
  { w.emit (.writeFile path data true) with fs := setPath w.fs path (some (.file data)) }

/-- The call `os.WriteFile(path, data, 0644)`: it fails on an external fault,
when the directory of `path` is missing or when `path` is a directory; a failed
call leaves the file system as it was. The result is the error, if any. -/
def osWriteFile (env : Env) (path : Str) (data : Bytes) (w : World) : Option Str × World :=
  match env.diskFault w.tick path with
  | some e => (some e, w.emit (.writeFile path data false))
  | none =>
    if parentOK w.fs path && !decide (w.fs path = some Node.dir) then
      (none, w.stored path data)
    else (some (openError path), w.emit (.writeFile path data false))

/-- The call `os.Mkdir(path, 0755)` of main.go line 376, whose error is
discarded. -/
def osMkdir (env : Env) (path : Str) (w : World) : World :=
  if (env.diskFault w.tick path).isNone && parentOK w.fs path && (w.fs path).isNone then
    { w.emit (.mkdir path) with fs := setPath w.fs path (some .dir) }
  else w.emit (.mkdir path)

/-- The call `os.MkdirAll(jobsDir, 0755)` of main.go line 289, whose error is
discarded; it is only called on the one-component path `jobsDir`, so there is
no chain of parents to create. -/
def osMkdirAll (env : Env) (path : Str) (w : World) : World :=
  if (env.diskFault w.tick path).isNone && parentOK w.fs path && (w.fs path).isNone then
    { w.emit (.mkdirAll path) with fs := setPath w.fs path (some .dir) }
  else w.emit (.mkdirAll path)

/-! ## Constants and formatting -/

/-- The constant `userIDFile`. -/
def userIDFile : Str := "userid.txt".toList

/-- The constant `sessionTokenFile`. -/
def sessionTokenFile : Str := "sessiontoken.txt".toList

/-- The constant `jobsDir`. -/
def jobsDir : Str := ['j', 'o', 'b', 's']

/-- The decimal digit `d`. -/
def digitChar (d : Nat) : Char := Char.ofNat (48 + d)

/-- Decimal digits of `n`, most significant first; `fuel` bounds the number of
digits. -/
def fmtIntFuel : Nat → Nat → Str
  | 0, _ => []
  | fuel + 1, n =>
    if n < 10 then [digitChar n] else fmtIntFuel fuel (n / 10) ++ [digitChar (n % 10)]

/-- The verb `%d` of `fmt.Sprintf` on a non-negative integer. -/
def fmtInt (n : Nat) : Str := fmtIntFuel (n + 1) n

/-- The expression `fmt.Sprintf("jobs/last_page_%d.json", page)` of line 298. -/
def lastPageFile (page : Nat) : Str :=
  ['j', 'o', 'b', 's', '/', 'l', 'a', 's', 't', '_', 'p', 'a', 'g', 'e', '_'] ++ fmtInt page ++
    ['.', 'j', 's', 'o', 'n']

/-- The expression `fmt.Sprintf("%s/%s", jobsDir, jobID)` of line 365. -/
def jobDir (jobID : Str) : Str := jobsDir ++ '/' :: jobID

/-- The expression `fmt.Sprintf("%s/job.json", tdir)` of line 379. -/
def jobFilePath (tdir : Str) : Str := tdir ++ ['/', 'j', 'o', 'b', '.', 'j', 's', 'o', 'n']

/-- The expression `fmt.Sprintf("%s/completed", tdir)` of lines 368 and 404. -/
def sentinelPath (tdir : Str) : Str := tdir ++ ['/', 'c', 'o', 'm', 'p', 'l', 'e', 't', 'e', 'd']

/-- The expression `fmt.Sprintf("%s/%s", tdir, fname)` of line 398. -/
def imageDest (tdir fname : Str) : Str := tdir ++ '/' :: fname

/-- The predicate `unicode.IsSpace`. -/
def isSpace (c : Char) : Bool :=
  let n := c.toNat
  (9 ≤ n && n ≤ 13) || n = 32 || n = 133 || n = 160 || n = 5760 || (8192 ≤ n && n ≤ 8202) ||
    n = 8232 || n = 8233 || n = 8239 || n = 8287 || n = 12288

/-- The function `strings.TrimSpace`. -/
def trimSpace (s : Str) : Str :=
  ((s.dropWhile isSpace).reverse.dropWhile isSpace).reverse

/-- The URL built by `fmt.Sprintf` in `fetchJobs` (line 325). -/
def listingURL (jobsType userID : Str) (page : Nat) : Str :=
  "https://www.midjourney.com/api/app/recent-jobs/?orderBy=".toList ++ jobsType ++
    "&jobStatus=completed&userId=".toList ++ userID ++
    "&dedupe=true&refreshApi=0&page=".toList ++ fmtInt page

/-- The call `json.Unmarshal(jobs, &jobArray)`: on an empty input it reports
`unexpected end of JSON input`; otherwise the decoder of the surroundings
decides. -/
def jsonUnmarshal (env : Env) (data : Bytes) : Except Str (List Job) :=
  if data = [] then .error "unexpected end of JSON input".toList else env.jsonDecode data

/-! ## The functions of main.go -/

/-- The function `fetchJobs` (main.go lines 322-352). -/
def fetchJobs (env : Env) (userID sessionToken : Str) (page : Nat) (w : World) :
    Except Str Bytes × World :=
  if w.activeJob then
    let url := listingURL env.jobsType userID page
    match env.listing w.tick url sessionToken with
    | .requestError e => (.error e, logToWindow ('1' :: ' ' :: url) w)
    | .transportError e =>
      (.error e, logToWindow ('2' :: ' ' :: url) (w.emit (.listJobs url page none)))
    | .bodyError e =>
      (.error e, logToWindow ('3' :: ' ' :: url) (w.emit (.listJobs url page none)))
    | .body data => (.ok data, w.emit (.listJobs url page (some data)))
  else (.ok [], w)

/-- The function `downloadImage` (main.go lines 411-429); the result is the
error, if any. -/
def downloadImage (env : Env) (imgURL dest : Str) (w : World) : Option Str × World :=
  match env.image w.tick imgURL with
  | .error e => (some e, w.emit (.getImage imgURL none))
  | .ok imgData => osWriteFile env dest imgData (w.emit (.getImage imgURL (some imgData)))

/-- The loop over `job.ImagePaths` of `processJob` (main.go lines 389-402). -/
def imageLoop (env : Env) (tdir : Str) : List Str → World → Outcome × World
  | [], w => (.returned, w)
  | imgURL :: rest, w =>
    let fname := lastSegment imgURL
    if fnamePattern.matchString fname = false then
      (.exited 1, logToWindow ("Chemin d'image potentiellement dangereux ".toList ++ imgURL ++
        " se terminant par ".toList ++ fname ++ " -- arrêt!".toList) w)
    else
      match downloadImage env imgURL (imageDest tdir fname)
          (logToWindow ("[200] ".toList ++ fname) w) with
      | (some err, w1) => (.panicked err, w1)
      | (none, w1) => imageLoop env tdir rest w1

/-- The second half of `processJob` (main.go lines 379-408): write `job.json`,
download the images, write the sentinel. -/
def finishJob (env : Env) (job : Job) (tdir : Str) (w : World) : Outcome × World :=
  match env.jsonMarshal job with
  | .error err => (.panicked err, w)
  | .ok jobJSON =>
    match osWriteFile env (jobFilePath tdir) jobJSON w with
    | (some err, w1) => (.panicked err, w1)
    | (none, w1) =>
      match imageLoop env tdir job.ImagePaths w1 with
      | (.returned, w2) =>
        match osWriteFile env (sentinelPath tdir) [] w2 with
        | (some err, w3) => (.panicked err, w3)
        | (none, w3) => (.returned, w3)
      | (o, w2) => (o, w2)

/-- The function `processJob` (main.go lines 356-408). -/
def processJob (env : Env) (job : Job) (w0 : World) : Outcome × World :=
  let w := { w0 with calls := w0.calls ++ [job] }
  let jobID := job.ID
  if jobIDPattern.matchString jobID = false then
    (.returned, { logToWindow ("Potentially unsafe job ID ".toList ++ jobID ++
      " -- stopping!".toList) w with activeJob := false })
  else
    let tdir := jobDir jobID
    match osStat tdir w with
    | (some .dir, w1) =>
      match osStat (sentinelPath tdir) w1 with
      | (some _, w2) =>
        (.returned, logToWindow ("Skipping ".toList ++ jobID ++ " -- already downloaded.".toList) w2)
      | (none, w2) =>
        finishJob env job tdir (logToWindow ("Warning: ".toList ++ jobID ++
          " did not finish syncing. Will try again!".toList) w2)
    | (_, w1) =>
      finishJob env job tdir (osMkdir env tdir (logToWindow ("Téléchargement de ".toList ++ jobID) w1))

/-- The loop over `jobArray` of `recentJobs` (main.go lines 312-316). -/
def jobLoop (env : Env) : List Job → World → Outcome × World
  | [], w => (.returned, w)
  | job :: rest, w =>
    if w.activeJob then
      match processJob env job w with
      | (.returned, w1) => jobLoop env rest w1
      | (o, w1) => (o, w1)
    else jobLoop env rest w

/-- One iteration of the page loop of `recentJobs` (main.go lines 292-316).
The first component is `none` when the loop goes on to the next page and the
way the run ends otherwise. -/
def pageStep (env : Env) (userID sessionToken : Bytes) (page : Nat) (w : World) :
    Option Outcome × World :=
  match fetchJobs env (trimSpace (env.text userID)) (trimSpace (env.text sessionToken)) page w with
  | (.error err, w1) => (some .returned, logToWindow ("[803] ".toList ++ err) w1)
  | (.ok jobs, w1) =>
    match osWriteFile env (lastPageFile page) jobs w1 with
    | (some err, w2) => (some .returned, logToWindow ("[804] ".toList ++ err) w2)
    | (none, w2) =>
      match jsonUnmarshal env jobs with
      | .error err => (some .returned, logToWindow ("[805] ".toList ++ err) w2)
      | .ok jobArray =>
        match jobLoop env jobArray w2 with
        | (.returned, w3) => (none, w3)
        | (o, w3) => (some o, w3)

/-- The page loop of `recentJobs` (main.go line 291): `n` iterations starting
at `page`. The first component is `none` when all `n` iterations ran. -/
def pageLoop (env : Env) (userID sessionToken : Bytes) : Nat → Nat → World → Option Outcome × World
  | 0, _, w => (none, w)
  | n + 1, page, w =>
    match pageStep env userID sessionToken page w with
    | (none, w1) => pageLoop env userID sessionToken n (page + 1) w1
    | (some o, w1) => (some o, w1)

/-- The function `recentJobs` (main.go lines 272-318). -/
def recentJobs (env : Env) (w : World) : Outcome × World :=
  if w.activeJob = false then (.returned, w)
  else
    match osReadFile userIDFile w with
    | (.error err, w1) => (.returned, logToWindow ("[801] ".toList ++ err) w1)
    | (.ok userID, w1) =>
      match osReadFile sessionTokenFile w1 with
      | (.error err, w2) => (.returned, logToWindow ("[802] ".toList ++ err) w2)
      | (.ok sessionToken, w2) =>
        match pageLoop env userID sessionToken 200 1 (osMkdirAll env jobsDir w2) with
        | (none, w3) => (.returned, w3)
        | (some o, w3) => (o, w3)

/-! ## Vocabulary of the specification -/

/-- Lower-case hexadecimal digit, the class `[0-9a-f]`. -/
def isLowerHex (c : Char) : Prop :=
  (48 ≤ c.toNat ∧ c.toNat ≤ 57) ∨ (97 ≤ c.toNat ∧ c.toNat ≤ 102)

/-- The textual form the claim describes: 36 code points, `-` at the positions
8, 13, 18 and 23, a lower-case hexadecimal digit everywhere else. -/
def IsCanonicalUUID (s : Str) : Prop :=
  s.length = 36 ∧
    ∀ i, i < 36 → ∃ c, s[i]? = some c ∧
      if i = 8 ∨ i = 13 ∨ i = 18 ∨ i = 23 then c = '-' else isLowerHex c

/-- The class `[0-9_]`. -/
def isDigitOrUnderscore (c : Char) : Prop :=
  (48 ≤ c.toNat ∧ c.toNat ≤ 57) ∨ c = '_'

/-- The file names the claim describes: a non-empty run of digits and
underscores, a dot, and one of the four extensions. -/
def IsImageFilename (f : Str) : Prop :=
  ∃ stem ext : Str, f = stem ++ '.' :: ext ∧ stem ≠ [] ∧ (∀ c ∈ stem, isDigitOrUnderscore c) ∧
    (ext = ['p', 'n', 'g'] ∨ ext = ['j', 'p', 'g'] ∨ ext = ['j', 'p', 'e', 'g'] ∨
      ext = ['w', 'e', 'b', 'p'])

/-- A run of `n` sync runs one after the other, as the hourly ticker of
`main` (lines 89-102) triggers them; a run that terminates the process ends
the sequence. -/
def timerRuns (env : Env) : Nat → World → Outcome × World
  | 0, w => (.returned, w)
  | n + 1, w =>
    match recentJobs env w with
    | (.returned, w1) => timerRuns env n w1
    | (o, w1) => (o, w1)

/-- The URLs of the image downloads issued in a trace, in order. -/
def imageURLs : List Event → List Str
  | [] => []
  | .getImage u _ :: t => u :: imageURLs t
  | _ :: t => imageURLs t

/-- The two operations of a successful `downloadImage` of `u` with body `d`. -/
def downloadEvents (tdir u : Str) (d : Bytes) : List Event :=
  [.getImage u (some d), .writeFile (imageDest tdir (lastSegment u)) d true]

/-- The event is a download of, or a write of the image of, an entry of `urls`
whose file name passes the check. -/
def IsImageEvent (tdir : Str) (urls : List Str) (e : Event) : Prop :=
  ∃ u ∈ urls, fnamePattern.matchString (lastSegment u) = true ∧
    ((∃ b, e = .getImage u b) ∨ ∃ d ok, e = .writeFile (imageDest tdir (lastSegment u)) d ok)

/-- The call did everything a complete download consists of: `job.json` was
written, every file name passed the check, every image was fetched and stored
at its destination, and the sentinel was written. -/
def Succeeded (tdir : Str) (job : Job) (T : List Event) : Prop :=
  (∃ js, Event.writeFile (jobFilePath tdir) js true ∈ T) ∧
  (∀ u ∈ job.ImagePaths, fnamePattern.matchString (lastSegment u) = true) ∧
  (∀ u ∈ job.ImagePaths, ∃ d, Event.getImage u (some d) ∈ T ∧
    Event.writeFile (imageDest tdir (lastSegment u)) d true ∈ T) ∧
  Event.writeFile (sentinelPath tdir) [] true ∈ T

/-- The same without the write of the sentinel, as the claim lists it. -/
def SucceededBeforeSentinel (tdir : Str) (job : Job) (T : List Event) : Prop :=
  (∃ js, Event.writeFile (jobFilePath tdir) js true ∈ T) ∧
  (∀ u ∈ job.ImagePaths, fnamePattern.matchString (lastSegment u) = true) ∧
  (∀ u ∈ job.ImagePaths, ∃ d, Event.getImage u (some d) ∈ T ∧
    Event.writeFile (imageDest tdir (lastSegment u)) d true ∈ T)

/-- The operations that precede the second half of `processJob`: the look-ups
of the directory and of the sentinel, or the look-up and the creation of the
directory. -/
def IsHeader (tdir : Str) (hdr : List Event) : Prop :=
  hdr = [.stat tdir, .stat (sentinelPath tdir)] ∨ hdr = [.stat tdir, .mkdir tdir]

/-- The operations `processJob` can issue for a job with directory `tdir`. -/
def IsJobEvent (tdir : Str) (job : Job) (e : Event) : Prop :=
  e = .stat tdir ∨ e = .stat (sentinelPath tdir) ∨ e = .mkdir tdir ∨
    (∃ js ok, e = .writeFile (jobFilePath tdir) js ok) ∨
    IsImageEvent tdir job.ImagePaths e ∨
    (∃ ok, e = .writeFile (sentinelPath tdir) [] ok)

/-- The operations of an image loop that ends with `o`: the first `k` entries
were each fetched and stored at their destination, in listing order, and the
loop ended at position `k`: behind the last entry, at a name that fails the
check, at a GET that fails, or at a write that fails. -/
def StopsAtFirstFailure (tdir : Str) (urls : List Str) (o : Outcome) (T : List Event) : Prop :=
  ∃ (k : Nat) (payloads : List Bytes) (tail : List Event),
    payloads.length = k ∧ k ≤ urls.length ∧
    (∀ u ∈ urls.take k, fnamePattern.matchString (lastSegment u) = true) ∧
    T = ((urls.take k).zip payloads).flatMap (fun x => downloadEvents tdir x.1 x.2) ++ tail ∧
    ((k = urls.length ∧ o = .returned ∧ tail = []) ∨
      (∃ u, urls[k]? = some u ∧ fnamePattern.matchString (lastSegment u) = false ∧
        o = .exited 1 ∧ tail = []) ∨
      (∃ u e, urls[k]? = some u ∧ fnamePattern.matchString (lastSegment u) = true ∧
        o = .panicked e ∧ tail = [.getImage u none]) ∨
      (∃ u e d, urls[k]? = some u ∧ fnamePattern.matchString (lastSegment u) = true ∧
        o = .panicked e ∧
        tail = [.getImage u (some d), .writeFile (imageDest tdir (lastSegment u)) d false]))

/-- The operations of the second half of `processJob` when it ends with `o`:
nothing when the job cannot be serialised; the failed write of `job.json`; or
the write of `job.json`, the image loop up to its first failing step, and, when
the loop came to its end, the write of the sentinel, failed or not. -/
def FinishRun (tdir : Str) (job : Job) (o : Outcome) (T : List Event) : Prop :=
  (∃ e, o = .panicked e ∧ T = []) ∨
  (∃ js e, o = .panicked e ∧ T = [.writeFile (jobFilePath tdir) js false]) ∨
  (∃ (js : Bytes) (oi : Outcome) (TI E : List Event),
    StopsAtFirstFailure tdir job.ImagePaths oi TI ∧
    T = .writeFile (jobFilePath tdir) js true :: (TI ++ E) ∧
    ((oi ≠ .returned ∧ o = oi ∧ E = []) ∨
      (oi = .returned ∧ (∃ e, o = .panicked e) ∧
        E = [.writeFile (sentinelPath tdir) [] false]) ∨
      (oi = .returned ∧ o = .returned ∧ E = [.writeFile (sentinelPath tdir) [] true])))

/-- The operations of a call of `processJob` that does not skip the job: the
look-ups, then the second half up to its first failing step. -/
def JobRun (tdir : Str) (job : Job) (o : Outcome) (T : List Event) : Prop :=
  ∃ hdr TF, IsHeader tdir hdr ∧ T = hdr ++ TF ∧ FinishRun tdir job o TF

/-- Nothing outside the program fails for the job: it can be serialised, no
disk operation meets a fault, every image can be fetched, every file name
passes the check, the directory of the job exists or can be created, and none
of the paths to be written is a directory. -/
def NothingFails (env : Env) (job : Job) (w : World) : Prop :=
  (∃ js, env.jsonMarshal job = .ok js) ∧
  (∀ t p, env.diskFault t p = none) ∧
  (∀ t, ∀ u ∈ job.ImagePaths, ∃ d, env.image t u = .ok d) ∧
  (∀ u ∈ job.ImagePaths, fnamePattern.matchString (lastSegment u) = true) ∧
  (w.fs (jobDir job.ID) = some .dir ∨
    (w.fs (jobDir job.ID) = none ∧ w.fs jobsDir = some .dir)) ∧
  w.fs (jobFilePath (jobDir job.ID)) ≠ some .dir ∧
  (∀ u ∈ job.ImagePaths, w.fs (imageDest (jobDir job.ID) (lastSegment u)) ≠ some .dir)

/-- The text `p` begins with `pre`. -/
def startsWith : Str → Str → Bool
  | [], _ => true
  | _ :: _, [] => false
  | a :: as, b :: bs => decide (a = b) && startsWith as bs

/-- The operations of the page loop itself: the requests for listing pages and
the writes below `jobs/last_page_`. -/
def isPageEvent : Event → Bool
  | .listJobs _ _ _ => true
  | .writeFile path _ _ =>
    startsWith ['j', 'o', 'b', 's', '/', 'l', 'a', 's', 't', '_', 'p', 'a', 'g', 'e', '_'] path
  | _ => false

/-- What the page loop issues for the pages `first, first+1, ...` when each is
fetched and stored: the request and the write of the body that came back. -/
def pageTrace (jobsType userID : Str) : Nat → List (Bytes × List Job) → List Event
  | _, [] => []
  | page, (body, _) :: rest =>
    .listJobs (listingURL jobsType userID page) page (some body) ::
      .writeFile (lastPageFile page) body true :: pageTrace jobsType userID (page + 1) rest

/-- The value of a decimal numeral. -/
def decValue (s : Str) : Nat := s.foldl (fun a c => 10 * a + (c.toNat - 48)) 0

/-- A log line that begins with a three-digit code in brackets, such as
`[803]`. -/
def hasCode : Str → Bool
  | '[' :: a :: b :: c :: ']' :: _ => a.isDigit && b.isDigit && c.isDigit
  | _ => false

/-! ## Concrete inputs -/

/-- A job identifier in canonical form. -/
def sampleID : Str := "11111111-1111-1111-1111-111111111111".toList

/-- A job with one image whose file name passes the check. -/
def sampleJob : Job :=
  { ID := sampleID, EnqueueTime := "t0".toList, ImagePaths := ["https://x/1_2.png".toList] }

/-- A job whose first image has a file name that fails the check. -/
def badNameJob : Job :=
  { ID := sampleID, EnqueueTime := "t0".toList,
    ImagePaths := ["https://x/1_a.png".toList, "https://x/1_2.png".toList] }

/-- A job whose identifier fails the check. -/
def badIDJob : Job :=
  { ID := "../../etc".toList, EnqueueTime := "t0".toList, ImagePaths := [] }

/-- Surroundings in which no disk operation and no image download fails, and
the listing endpoint is unreachable. -/
def calmEnv : Env where
  jobsType := "new".toList
  diskFault := fun _ _ => none
  listing := fun _ _ _ => .transportError "connection refused".toList
  image := fun _ _ => .ok [1, 2, 3]
  jsonMarshal := fun _ => .ok [123, 125]
  jsonDecode := fun _ => .ok []
  text := fun _ => []

/-- The same surroundings, except that creating the sentinel of `sampleJob`
fails. -/
def sentinelFaultEnv : Env :=
  { calmEnv with
    diskFault := fun _ p =>
      if p = sentinelPath (jobDir sampleID) then some "disk quota exceeded".toList else none }

/-- A store that holds the directory `jobs` and nothing else; the flag is set. -/
def freshWorld : World :=
  { fs := fun p => if p = jobsDir then some .dir else none
    activeJob := true, log := [], trace := [], calls := [], tick := 0 }

/-- A store in which `sampleJob` has been downloaded completely. -/
def doneWorld : World :=
  { fs := fun p =>
      if p = jobsDir then some .dir
      else if p = jobDir sampleID then some .dir
      else if p = sentinelPath (jobDir sampleID) then some (.file [])
      else none
    activeJob := true, log := [], trace := [], calls := [], tick := 0 }

/-- Surroundings in which writing `job.json` of the sample job fails. -/
def jobFileFaultEnv : Env :=
  { calmEnv with
    diskFault := fun _ p =>
      if p = jobFilePath (jobDir sampleID) then some "permission denied".toList else none }

/-- Surroundings whose first listing page holds a job with an invalid id
followed by a job with a valid id. -/
def killEnv : Env :=
  { calmEnv with
    listing := fun _ _ _ => .body [91, 93]
    jsonDecode := fun _ => .ok [badIDJob, sampleJob] }

/-- A store with both credential files, the directory `jobs` and a dump of
page 2 left by an earlier run; the flag is set. -/
def readyWorld : World :=
  { fs := fun p =>
      if p = userIDFile then some (.file [117])
      else if p = sessionTokenFile then some (.file [116])
      else if p = jobsDir then some .dir
      else if p = lastPageFile 2 then some (.file [91, 93])
      else none
    activeJob := true, log := [], trace := [], calls := [], tick := 0 }

/-- Surroundings in which the listing endpoint answers for every page except
page 3, and every page holds the sample job. -/
def thirdPageFailEnv : Env :=
  { calmEnv with
    listing := fun _ url _ =>
      if url = listingURL "new".toList [] 3 then .transportError "timeout".toList
      else .body [91, 93]
    jsonDecode := fun _ => .ok [sampleJob] }

/-- Surroundings in which the listing endpoint answers for page 1 only, and
page 1 holds a job with a valid id whose first image name fails the check. -/
def exitEnv : Env :=
  { calmEnv with
    listing := fun _ url _ =>
      if url = listingURL "new".toList [] 1 then .body [91, 93]
      else .transportError "timeout".toList
    jsonDecode := fun _ => .ok [badNameJob] }

/-- The world in which the page loop of a run starts: both credential files
have been read and `os.MkdirAll(jobsDir, 0755)` has been called. -/
def loopStart (env : Env) (w : World) : World :=
  osMkdirAll env jobsDir ((w.emit (.readFile userIDFile)).emit (.readFile sessionTokenFile))

/-- Every identifier of the jobs passes the check. -/
def allValid (c : List Job) : Bool := c.all fun j => jobIDPattern.matchString j.ID

/-! ## Facts about the matcher -/

theorem drop_eq_cons_iff (s : Str) (a : Nat) (c : Char) (t : Str) :
    s.drop a = c :: t ↔ s[a]? = some c ∧ t = s.drop (a + 1) := by
  induction s generalizing a with
  | nil => simp
  | cons x xs ih =>
    cases a with
    | zero => simp [eq_comm]
    | succ a => simpa using ih a

theorem mem_run_lit (n : Nat) (c : Char) (m t : Str) :
    t ∈ Regex.run n (.lit c) m ↔ m = c :: t := by
  cases m with
  | nil => simp [Regex.run]
  | cons x xs =>
    by_cases h : x = c
    · simp [Regex.run, h, eq_comm]
    · simp [Regex.run, h]

theorem mem_run_cls (n : Nat) (rs : List (Char × Char)) (m t : Str) :
    t ∈ Regex.run n (.cls rs) m ↔ ∃ c, inClass rs c = true ∧ m = c :: t := by
  cases m with
  | nil => simp [Regex.run]
  | cons x xs =>
    by_cases h : inClass rs x = true
    · simp [Regex.run, h]
      constructor
      · rintro rfl; exact ⟨x, h, rfl, rfl⟩
      · rintro ⟨c, _, rfl, rfl⟩; rfl
    · simp [Regex.run, h]
      rintro c hc rfl
      exact absurd hc h

theorem mem_run_seq (n : Nat) (a b : Regex) (m t : Str) :
    t ∈ Regex.run n (.seq a b) m ↔ ∃ x, x ∈ Regex.run n a m ∧ t ∈ Regex.run n b x := by
  simp [Regex.run, List.mem_flatMap]

theorem mem_run_alt (n : Nat) (a b : Regex) (m t : Str) :
    t ∈ Regex.run n (.alt a b) m ↔ t ∈ Regex.run n a m ∨ t ∈ Regex.run n b m := by
  simp [Regex.run]

theorem mem_run_endText (n : Nat) (m t : Str) :
    t ∈ Regex.run n .endText m ↔ m = [] ∧ t = [] := by
  cases m <;> simp [Regex.run]

theorem mem_run_beginText (n : Nat) (m t : Str) :
    t ∈ Regex.run n .beginText m ↔ m.length = n ∧ t = m := by
  by_cases h : m.length = n <;> simp [Regex.run, h]

/-- Offset form of a class repeated `k` times: the code points at the
positions `a .. a+k-1` of `s` are in the class. -/
theorem mem_iter_cls_drop (n : Nat) (rs : List (Char × Char)) (k : Nat) (s : Str) (a : Nat)
    (t : Str) :
    t ∈ iter (Regex.run n (.cls rs)) k (s.drop a) ↔
      t = s.drop (a + k) ∧ ∀ i, a ≤ i → i < a + k → ∃ c, s[i]? = some c ∧ inClass rs c = true := by
  induction k generalizing a with
  | zero =>
    simp [iter]
    intro _ i h1 h2
    omega
  | succ k ih =>
    simp only [iter, List.mem_flatMap, mem_run_cls, drop_eq_cons_iff]
    constructor
    · rintro ⟨x, ⟨c, hc, hs, rfl⟩, ht⟩
      rw [ih] at ht
      refine ⟨by rw [ht.1]; congr 1; omega, ?_⟩
      intro i h1 h2
      by_cases hi : i = a
      · subst hi; exact ⟨c, hs, hc⟩
      · exact ht.2 i (by omega) (by omega)
    · rintro ⟨rfl, h⟩
      obtain ⟨c, hs, hc⟩ := h a (le_refl _) (by omega)
      refine ⟨s.drop (a + 1), ⟨c, hc, hs, rfl⟩, ?_⟩
      rw [ih]
      refine ⟨by congr 1; omega, ?_⟩
      intro i h1 h2
      exact h i (by omega) (by omega)

/-- Append form of a class repeated `k` times. -/
theorem mem_iter_cls (n : Nat) (rs : List (Char × Char)) (k : Nat) (m t : Str) :
    t ∈ iter (Regex.run n (.cls rs)) k m ↔
      ∃ p : Str, p.length = k ∧ (∀ c ∈ p, inClass rs c = true) ∧ m = p ++ t := by
  induction k generalizing m with
  | zero =>
    simp only [iter, List.mem_singleton]
    constructor
    · rintro rfl; exact ⟨[], rfl, by simp, rfl⟩
    · rintro ⟨p, hp, _, rfl⟩
      simp [List.length_eq_zero.mp hp]
  | succ k ih =>
    simp only [iter, List.mem_flatMap, mem_run_cls]
    constructor
    · rintro ⟨x, ⟨c, hc, rfl⟩, ht⟩
      obtain ⟨p, hp, hall, rfl⟩ := (ih _).mp ht
      refine ⟨c :: p, by simp [hp], ?_, rfl⟩
      intro d hd
      rcases List.mem_cons.mp hd with rfl | hd
      · exact hc
      · exact hall d hd
    · rintro ⟨p, hp, hall, rfl⟩
      cases p with
      | nil => simp at hp
      | cons c p =>
        refine ⟨p ++ t, ⟨c, hall c (by simp), rfl⟩, (ih _).mpr ⟨p, by simpa using hp, ?_, rfl⟩⟩
        intro d hd
        exact hall d (by simp [hd])

theorem mem_run_rep_cls_drop (n : Nat) (rs : List (Char × Char)) (k : Nat) (s : Str) (a : Nat)
    (t : Str) :
    t ∈ Regex.run n (.rep k (.cls rs)) (s.drop a) ↔
      t = s.drop (a + k) ∧ ∀ i, a ≤ i → i < a + k → ∃ c, s[i]? = some c ∧ inClass rs c = true := by
  simpa [Regex.run] using mem_iter_cls_drop n rs k s a t

theorem mem_run_plus_cls (n : Nat) (rs : List (Char × Char)) (m t : Str) :
    t ∈ Regex.run n (.plus (.cls rs)) m ↔
      ∃ p : Str, p ≠ [] ∧ (∀ c ∈ p, inClass rs c = true) ∧ m = p ++ t := by
  have hrun : Regex.run n (.plus (.cls rs)) m =
      (List.range (m.length + 1)).flatMap fun k => iter (Regex.run n (.cls rs)) (k + 1) m := by
    simp [Regex.run]
  rw [hrun]
  simp only [List.mem_flatMap, List.mem_range, mem_iter_cls]
  constructor
  · rintro ⟨k, _, p, hp, hall, rfl⟩
    refine ⟨p, ?_, hall, rfl⟩
    rintro rfl
    simp at hp
  · rintro ⟨p, hp, hall, rfl⟩
    cases p with
    | nil => exact absurd rfl hp
    | cons c p =>
      refine ⟨p.length, ?_, c :: p, rfl, hall, rfl⟩
      simp
      omega

/-- A pattern anchored by `^` matches somewhere in the text exactly when its
remainder matches from offset 0. -/
theorem matchString_beginText (r : Regex) (s : Str) :
    Regex.matchString (.seq .beginText r) s = true ↔ ∃ t, t ∈ Regex.run s.length r s := by
  have hne : ∀ l : List Str, (!l.isEmpty) = true ↔ ∃ t, t ∈ l := by
    intro l
    cases l <;> simp
  simp only [Regex.matchString, List.any_eq_true, List.mem_range, hne, mem_run_seq,
    mem_run_beginText]
  constructor
  · rintro ⟨x, _, t, y, ⟨hlen, rfl⟩, ht⟩
    have hx : s.drop x = s := by
      rw [List.length_drop] at hlen
      by_cases h0 : x = 0
      · subst h0; rfl
      · have : s.length = 0 := by omega
        rw [List.length_eq_zero.mp this]
        simp
    rw [hx] at ht
    exact ⟨t, ht⟩
  · rintro ⟨t, ht⟩
    exact ⟨0, by omega, t, s, ⟨rfl, rfl⟩, ht⟩

theorem inClass_hex (c : Char) : inClass [('0', '9'), ('a', 'f')] c = true ↔ isLowerHex c := by
  simp [inClass, isLowerHex]

theorem jobID_match_iff (s : Str) :
    jobIDPattern.matchString s = true ↔ IsCanonicalUUID s := by
  unfold jobIDPattern hexClass
  rw [matchString_beginText]
  have h0 : ∀ t, t ∈ Regex.run s.length
      (.seq (.rep 8 (.cls [('0', '9'), ('a', 'f')])) (.seq (.lit '-')
      (.seq (.rep 4 (.cls [('0', '9'), ('a', 'f')])) (.seq (.lit '-')
      (.seq (.rep 4 (.cls [('0', '9'), ('a', 'f')])) (.seq (.lit '-')
      (.seq (.rep 4 (.cls [('0', '9'), ('a', 'f')])) (.seq (.lit '-')
      (.seq (.rep 12 (.cls [('0', '9'), ('a', 'f')])) .endText))))))))) (s.drop 0) ↔
      t = [] ∧ IsCanonicalUUID s := by
    intro t
    simp only [mem_run_seq, mem_run_rep_cls_drop, mem_run_lit, drop_eq_cons_iff, mem_run_endText,
      and_assoc, exists_eq_left, exists_and_left, inClass_hex]
    simp only [Nat.zero_add, Nat.reduceAdd, List.drop_eq_nil_iff]
    constructor
    · rintro ⟨h1, d8, h2, d13, h3, d18, h4, d23, h5, hlen, rfl⟩
      refine ⟨rfl, ?_, ?_⟩
      · obtain ⟨c, hc, _⟩ := h5 35 (by omega) (by omega)
        have := (List.getElem?_eq_some.mp hc).1
        omega
      · intro i hi
        rcases Nat.lt_or_ge i 8 with g1 | g1
        · obtain ⟨c, hc, hx⟩ := h1 i (by omega) g1
          exact ⟨c, hc, by rw [if_neg (by omega)]; exact hx⟩
        rcases Nat.eq_or_lt_of_le g1 with g2 | g2
        · subst g2; exact ⟨_, d8, by simp⟩
        rcases Nat.lt_or_ge i 13 with g3 | g3
        · obtain ⟨c, hc, hx⟩ := h2 i (by omega) g3
          exact ⟨c, hc, by rw [if_neg (by omega)]; exact hx⟩
        rcases Nat.eq_or_lt_of_le g3 with g4 | g4
        · subst g4; exact ⟨_, d13, by simp⟩
        rcases Nat.lt_or_ge i 18 with g5 | g5
        · obtain ⟨c, hc, hx⟩ := h3 i (by omega) g5
          exact ⟨c, hc, by rw [if_neg (by omega)]; exact hx⟩
        rcases Nat.eq_or_lt_of_le g5 with g6 | g6
        · subst g6; exact ⟨_, d18, by simp⟩
        rcases Nat.lt_or_ge i 23 with g7 | g7
        · obtain ⟨c, hc, hx⟩ := h4 i (by omega) g7
          exact ⟨c, hc, by rw [if_neg (by omega)]; exact hx⟩
        rcases Nat.eq_or_lt_of_le g7 with g8 | g8
        · subst g8; exact ⟨_, d23, by simp⟩
        obtain ⟨c, hc, hx⟩ := h5 i (by omega) hi
        exact ⟨c, hc, by rw [if_neg (by omega)]; exact hx⟩
    · rintro ⟨rfl, hlen, h⟩
      have hex : ∀ i, i < 36 → ¬ (i = 8 ∨ i = 13 ∨ i = 18 ∨ i = 23) →
          ∃ c, s[i]? = some c ∧ isLowerHex c := by
        intro i hi hn
        obtain ⟨c, hc, hx⟩ := h i hi
        rw [if_neg hn] at hx
        exact ⟨c, hc, hx⟩
      have dash : ∀ i, i < 36 → (i = 8 ∨ i = 13 ∨ i = 18 ∨ i = 23) → s[i]? = some '-' := by
        intro i hi hp
        obtain ⟨c, hc, hx⟩ := h i hi
        rw [if_pos hp] at hx
        rw [hc, hx]
      refine ⟨fun i _ hi => hex i (by omega) (by omega), dash 8 (by omega) (by simp),
        fun i _ hi => hex i (by omega) (by omega), dash 13 (by omega) (by simp),
        fun i _ hi => hex i (by omega) (by omega), dash 18 (by omega) (by simp),
        fun i _ hi => hex i (by omega) (by omega), dash 23 (by omega) (by simp),
        fun i _ hi => hex i (by omega) (by omega), by omega, rfl⟩
  have h1 : ∀ t, t ∈ Regex.run s.length
      (.seq (.rep 8 (.cls [('0', '9'), ('a', 'f')])) (.seq (.lit '-')
      (.seq (.rep 4 (.cls [('0', '9'), ('a', 'f')])) (.seq (.lit '-')
      (.seq (.rep 4 (.cls [('0', '9'), ('a', 'f')])) (.seq (.lit '-')
      (.seq (.rep 4 (.cls [('0', '9'), ('a', 'f')])) (.seq (.lit '-')
      (.seq (.rep 12 (.cls [('0', '9'), ('a', 'f')])) .endText))))))))) s ↔
      t = [] ∧ IsCanonicalUUID s := h0
  simp only [h1]
  simp


theorem inClass_digit (c : Char) :
    inClass [('0', '9'), ('_', '_')] c = true ↔ isDigitOrUnderscore c := by
  have h : (95 ≤ c.toNat ∧ c.toNat ≤ 95) ↔ c = '_' := by
    constructor
    · intro h
      have h95 : c.toNat = 95 := by omega
      have := Char.ofNat_toNat c
      rw [h95] at this
      rw [← this]
    · rintro rfl
      decide
  simp [inClass, isDigitOrUnderscore, h]

theorem fname_match_iff (f : Str) :
    fnamePattern.matchString f = true ↔ IsImageFilename f := by
  unfold fnamePattern
  rw [matchString_beginText]
  simp only [mem_run_seq, mem_run_plus_cls, mem_run_lit, mem_run_alt, Regex.word,
    mem_run_endText, inClass_digit]
  constructor
  · rintro ⟨t, x, ⟨p, hp, hall, rfl⟩, y, rfl, z, hz, rfl, rfl⟩
    refine ⟨p, y, rfl, hp, hall, ?_⟩
    rcases hz with ⟨a, rfl, b, rfl, rfl⟩ | ⟨a, rfl, b, rfl, rfl⟩ | ⟨a, rfl, b, rfl, c, rfl, rfl⟩ |
      ⟨a, rfl, b, rfl, c, rfl, rfl⟩ <;> simp
  · rintro ⟨stem, ext, rfl, hne, hall, hext⟩
    refine ⟨[], '.' :: ext, ⟨stem, hne, hall, rfl⟩, ext, rfl, [], ?_, rfl, rfl⟩
    rcases hext with rfl | rfl | rfl | rfl <;> simp

theorem splitSep_shape (u : Str) :
    ∃ (init : List Str) (last : Str), splitSep '/' u = init ++ [last] ∧ '/' ∉ last ∧
      ((init = [] ∧ u = last) ∨ (init ≠ [] ∧ ∃ pre, u = pre ++ '/' :: last)) := by
  induction u with
  | nil => exact ⟨[], [], rfl, by simp, Or.inl ⟨rfl, rfl⟩⟩
  | cons c cs ih =>
    obtain ⟨init, last, hs, hl, hu⟩ := ih
    by_cases hc : c = '/'
    · subst hc
      refine ⟨[] :: init, last, by simp [splitSep, hs], hl, Or.inr ⟨by simp, ?_⟩⟩
      rcases hu with ⟨_, rfl⟩ | ⟨_, pre, rfl⟩
      · exact ⟨[], rfl⟩
      · exact ⟨'/' :: pre, rfl⟩
    · cases init with
      | nil =>
        rcases hu with ⟨_, rfl⟩ | ⟨h, _⟩
        · refine ⟨[], c :: cs, by simp [splitSep, hc, hs], ?_, Or.inl ⟨rfl, rfl⟩⟩
          simp only [List.mem_cons, not_or]
          exact ⟨fun h => hc h.symm, hl⟩
        · exact absurd rfl h
      | cons h t =>
        rcases hu with ⟨h0, _⟩ | ⟨_, pre, rfl⟩
        · simp at h0
        · exact ⟨(c :: h) :: t, last, by simp [splitSep, hc, hs], hl,
            Or.inr ⟨by simp, c :: pre, rfl⟩⟩

/-- The derived file name is what follows the last `/` of the URL, or the
whole URL when it has no `/`. -/
theorem lastSegment_spec (u : Str) :
    '/' ∉ lastSegment u ∧
      (('/' ∉ u ∧ lastSegment u = u) ∨ ∃ pre, u = pre ++ '/' :: lastSegment u) := by
  obtain ⟨init, last, hs, hl, hu⟩ := splitSep_shape u
  have hlast : lastSegment u = last := by
    simp [lastSegment, hs]
  rw [hlast]
  refine ⟨hl, ?_⟩
  rcases hu with ⟨_, rfl⟩ | ⟨_, pre, rfl⟩
  · exact Or.inl ⟨hl, rfl⟩
  · exact Or.inr ⟨pre, rfl⟩

/-! ## Effects of the primitive operations -/

@[simp] theorem emit_fs (w : World) (e : Event) : (w.emit e).fs = w.fs := rfl
@[simp] theorem emit_activeJob (w : World) (e : Event) : (w.emit e).activeJob = w.activeJob := rfl
@[simp] theorem emit_log (w : World) (e : Event) : (w.emit e).log = w.log := rfl
@[simp] theorem emit_calls (w : World) (e : Event) : (w.emit e).calls = w.calls := rfl
@[simp] theorem emit_trace (w : World) (e : Event) : (w.emit e).trace = w.trace ++ [e] := rfl
@[simp] theorem emit_tick (w : World) (e : Event) : (w.emit e).tick = w.tick + 1 := rfl

@[simp] theorem stored_fs (w : World) (p : Str) (d : Bytes) :
    (w.stored p d).fs = setPath w.fs p (some (.file d)) := rfl
@[simp] theorem stored_activeJob (w : World) (p : Str) (d : Bytes) :
    (w.stored p d).activeJob = w.activeJob := rfl
@[simp] theorem stored_log (w : World) (p : Str) (d : Bytes) : (w.stored p d).log = w.log := rfl
@[simp] theorem stored_calls (w : World) (p : Str) (d : Bytes) :
    (w.stored p d).calls = w.calls := rfl
@[simp] theorem stored_trace (w : World) (p : Str) (d : Bytes) :
    (w.stored p d).trace = w.trace ++ [.writeFile p d true] := rfl
@[simp] theorem stored_tick (w : World) (p : Str) (d : Bytes) :
    (w.stored p d).tick = w.tick + 1 := rfl

@[simp] theorem log_fs (m : Str) (w : World) : (logToWindow m w).fs = w.fs := rfl
@[simp] theorem log_activeJob (m : Str) (w : World) :
    (logToWindow m w).activeJob = w.activeJob := rfl
@[simp] theorem log_log (m : Str) (w : World) : (logToWindow m w).log = w.log ++ [m] := rfl
@[simp] theorem log_calls (m : Str) (w : World) : (logToWindow m w).calls = w.calls := rfl
@[simp] theorem log_trace (m : Str) (w : World) : (logToWindow m w).trace = w.trace := rfl
@[simp] theorem log_tick (m : Str) (w : World) : (logToWindow m w).tick = w.tick := rfl

theorem recentJobs_inactive (env : Env) (w : World) (h : w.activeJob = false) :
    recentJobs env w = (.returned, w) := by
  simp [recentJobs, h]

theorem timerRuns_inactive (env : Env) (n : Nat) (w : World) (h : w.activeJob = false) :
    timerRuns env n w = (.returned, w) := by
  induction n with
  | zero => rfl
  | succ n ih => simp [timerRuns, recentJobs_inactive env w h, ih]

theorem processJob_invalid (env : Env) (job : Job) (w : World)
    (h : jobIDPattern.matchString job.ID = false) :
    processJob env job w = (.returned,
      { w with
        calls := w.calls ++ [job]
        log := w.log ++ ["Potentially unsafe job ID ".toList ++ job.ID ++ " -- stopping!".toList]
        activeJob := false }) := by
  simp [processJob, h, logToWindow]

theorem parentDir_none (name : Str) (h : '/' ∉ name) : parentDir name = none := by
  induction name with
  | nil => rfl
  | cons c cs ih =>
    simp only [List.mem_cons, not_or] at h
    have hc : ¬ c = '/' := fun hc => h.1 hc.symm
    simp [parentDir, ih h.2, hc]

theorem parentDir_append (d name : Str) (h : '/' ∉ name) :
    parentDir (d ++ '/' :: name) = some d := by
  induction d with
  | nil => simp [parentDir, parentDir_none name h]
  | cons c cs ih => simp [parentDir, ih]

theorem parentDir_sentinel (tdir : Str) : parentDir (sentinelPath tdir) = some tdir := by
  unfold sentinelPath
  exact parentDir_append tdir _ (by decide)

theorem parentDir_jobFile (tdir : Str) : parentDir (jobFilePath tdir) = some tdir := by
  unfold jobFilePath
  exact parentDir_append tdir _ (by decide)

/-- The two ways `os.WriteFile` ends. -/
theorem osWriteFile_spec (env : Env) (path : Str) (data : Bytes) (w : World) :
    (parentOK w.fs path = true ∧ osWriteFile env path data w = (none, w.stored path data)) ∨
      ∃ e, osWriteFile env path data w = (some e, w.emit (.writeFile path data false)) := by
  unfold osWriteFile
  cases hf : env.diskFault w.tick path with
  | some e => exact Or.inr ⟨e, rfl⟩
  | none =>
    by_cases hc : (parentOK w.fs path && !decide (w.fs path = some Node.dir)) = true
    · left
      have hp := (Bool.and_eq_true _ _).mp hc
      rw [if_pos hc]
      exact ⟨hp.1, rfl⟩
    · right
      rw [if_neg hc]
      exact ⟨_, rfl⟩

/-- The two ways `downloadImage` ends before its write. -/
theorem downloadImage_spec (env : Env) (u dest : Str) (w : World) :
    (∃ e, downloadImage env u dest w = (some e, w.emit (.getImage u none))) ∨
      ∃ d, downloadImage env u dest w =
        osWriteFile env dest d (w.emit (.getImage u (some d))) := by
  unfold downloadImage
  cases env.image w.tick u with
  | error e => exact Or.inl ⟨e, rfl⟩
  | ok d => exact Or.inr ⟨d, rfl⟩

theorem osMkdir_activeJob (env : Env) (p : Str) (w : World) :
    (osMkdir env p w).activeJob = w.activeJob := by
  unfold osMkdir; split <;> rfl

theorem osMkdir_calls (env : Env) (p : Str) (w : World) : (osMkdir env p w).calls = w.calls := by
  unfold osMkdir; split <;> rfl

theorem osMkdir_trace (env : Env) (p : Str) (w : World) :
    (osMkdir env p w).trace = w.trace ++ [.mkdir p] := by
  unfold osMkdir; split <;> rfl

theorem osMkdir_fs (env : Env) (p : Str) (w : World) (q : Str) (h : q ≠ p) :
    (osMkdir env p w).fs q = w.fs q := by
  unfold osMkdir; split <;> simp [setPath, h]

theorem imageLoop_invalid (env : Env) (tdir u : Str) (rest : List Str) (w : World)
    (h : fnamePattern.matchString (lastSegment u) = false) :
    imageLoop env tdir (u :: rest) w =
      (.exited 1, logToWindow ("Chemin d'image potentiellement dangereux ".toList ++ u ++
        " se terminant par ".toList ++ lastSegment u ++ " -- arrêt!".toList) w) := by
  simp [imageLoop, h]

theorem imageLoop_valid (env : Env) (tdir u : Str) (rest : List Str) (w : World)
    (h : fnamePattern.matchString (lastSegment u) = true) :
    imageLoop env tdir (u :: rest) w =
      match downloadImage env u (imageDest tdir (lastSegment u))
          (logToWindow ("[200] ".toList ++ lastSegment u) w) with
      | (some err, w1) => (.panicked err, w1)
      | (none, w1) => imageLoop env tdir rest w1 := by
  simp [imageLoop, h]

/-- The four ways one iteration of the image loop goes: the file name is
refused; the GET fails; the GET succeeds and the write fails; both succeed and
the loop goes on with the rest. -/
theorem imageLoop_cons_cases (env : Env) (tdir u : Str) (rest : List Str) (w : World) :
    (fnamePattern.matchString (lastSegment u) = false ∧
      imageLoop env tdir (u :: rest) w =
        (.exited 1, logToWindow ("Chemin d'image potentiellement dangereux ".toList ++ u ++
          " se terminant par ".toList ++ lastSegment u ++ " -- arrêt!".toList) w)) ∨
    (fnamePattern.matchString (lastSegment u) = true ∧ ∃ e,
      imageLoop env tdir (u :: rest) w =
        (.panicked e, (logToWindow ("[200] ".toList ++ lastSegment u) w).emit
          (.getImage u none))) ∨
    (fnamePattern.matchString (lastSegment u) = true ∧ ∃ e d,
      imageLoop env tdir (u :: rest) w =
        (.panicked e, ((logToWindow ("[200] ".toList ++ lastSegment u) w).emit
          (.getImage u (some d))).emit
            (.writeFile (imageDest tdir (lastSegment u)) d false))) ∨
    (fnamePattern.matchString (lastSegment u) = true ∧ ∃ d,
      imageLoop env tdir (u :: rest) w =
        imageLoop env tdir rest
          (((logToWindow ("[200] ".toList ++ lastSegment u) w).emit
              (.getImage u (some d))).stored (imageDest tdir (lastSegment u)) d)) := by
  cases hv : fnamePattern.matchString (lastSegment u) with
  | false => exact Or.inl ⟨rfl, imageLoop_invalid env tdir u rest w hv⟩
  | true =>
    right
    rw [imageLoop_valid env tdir u rest w hv]
    rcases downloadImage_spec env u (imageDest tdir (lastSegment u))
        (logToWindow ("[200] ".toList ++ lastSegment u) w) with ⟨e, hd⟩ | ⟨d, hd⟩
    · left
      rw [hd]
      exact ⟨rfl, e, rfl⟩
    · right
      rw [hd]
      rcases osWriteFile_spec env (imageDest tdir (lastSegment u)) d
          ((logToWindow ("[200] ".toList ++ lastSegment u) w).emit (.getImage u (some d)))
        with ⟨_, hw⟩ | ⟨e, hw⟩
      · right
        rw [hw]
        exact ⟨rfl, d, rfl⟩
      · left
        rw [hw]
        exact ⟨rfl, e, d, rfl⟩

/-- The ways the second half of `processJob` goes. -/
theorem finishJob_cases (env : Env) (job : Job) (tdir : Str) (w : World) :
    (∃ e, finishJob env job tdir w = (.panicked e, w)) ∨
    (∃ js e, finishJob env job tdir w =
      (.panicked e, w.emit (.writeFile (jobFilePath tdir) js false))) ∨
    (∃ js, parentOK w.fs (jobFilePath tdir) = true ∧
      ((imageLoop env tdir job.ImagePaths (w.stored (jobFilePath tdir) js)).1 ≠ .returned ∧
        finishJob env job tdir w =
          imageLoop env tdir job.ImagePaths (w.stored (jobFilePath tdir) js) ∨
      (imageLoop env tdir job.ImagePaths (w.stored (jobFilePath tdir) js)).1 = .returned ∧
        ((∃ e, finishJob env job tdir w = (.panicked e,
            (imageLoop env tdir job.ImagePaths (w.stored (jobFilePath tdir) js)).2.emit
              (.writeFile (sentinelPath tdir) [] false))) ∨
          (parentOK (imageLoop env tdir job.ImagePaths (w.stored (jobFilePath tdir) js)).2.fs
              (sentinelPath tdir) = true ∧
            finishJob env job tdir w = (.returned,
              (imageLoop env tdir job.ImagePaths (w.stored (jobFilePath tdir) js)).2.stored
                (sentinelPath tdir) []))))) := by
  unfold finishJob
  cases env.jsonMarshal job with
  | error e => exact Or.inl ⟨e, rfl⟩
  | ok js =>
    right
    rcases osWriteFile_spec env (jobFilePath tdir) js w with ⟨hp, hw⟩ | ⟨e, hw⟩
    · right
      refine ⟨js, hp, ?_⟩
      simp only [hw]
      rcases hl : imageLoop env tdir job.ImagePaths (w.stored (jobFilePath tdir) js) with ⟨o, w2⟩
      cases o with
      | returned =>
        right
        refine ⟨rfl, ?_⟩
        rcases osWriteFile_spec env (sentinelPath tdir) [] w2 with ⟨hp2, hw2⟩ | ⟨e, hw2⟩
        · exact Or.inr ⟨hp2, by simp only [hw2]⟩
        · exact Or.inl ⟨e, by simp only [hw2]⟩
      | exited c => exact Or.inl ⟨by simp, rfl⟩
      | panicked e => exact Or.inl ⟨by simp, rfl⟩
    · left
      exact ⟨js, e, by simp only [hw]⟩

/-- The three ways `processJob` goes on a job whose identifier passes the
check: the job is skipped, it is resumed, or its directory is created. -/
theorem processJob_cases (env : Env) (job : Job) (w : World)
    (hid : jobIDPattern.matchString job.ID = true) :
    (w.fs (jobDir job.ID) = some .dir ∧ w.fs (sentinelPath (jobDir job.ID)) ≠ none ∧
      processJob env job w = (.returned,
        logToWindow ("Skipping ".toList ++ job.ID ++ " -- already downloaded.".toList)
          (({ w with calls := w.calls ++ [job] }.emit (.stat (jobDir job.ID))).emit
            (.stat (sentinelPath (jobDir job.ID)))))) ∨
    (w.fs (jobDir job.ID) = some .dir ∧ w.fs (sentinelPath (jobDir job.ID)) = none ∧
      processJob env job w = finishJob env job (jobDir job.ID)
        (logToWindow ("Warning: ".toList ++ job.ID ++
            " did not finish syncing. Will try again!".toList)
          (({ w with calls := w.calls ++ [job] }.emit (.stat (jobDir job.ID))).emit
            (.stat (sentinelPath (jobDir job.ID)))))) ∨
    (w.fs (jobDir job.ID) ≠ some .dir ∧
      processJob env job w = finishJob env job (jobDir job.ID)
        (osMkdir env (jobDir job.ID)
          (logToWindow ("Téléchargement de ".toList ++ job.ID)
            ({ w with calls := w.calls ++ [job] }.emit (.stat (jobDir job.ID)))))) := by
  unfold processJob
  simp only [hid, Bool.true_eq_false, if_false, osStat]
  cases hd : w.fs (jobDir job.ID) with
  | none => exact Or.inr (Or.inr ⟨by simp, rfl⟩)
  | some nd =>
    cases nd with
    | file d => exact Or.inr (Or.inr ⟨by simp, rfl⟩)
    | dir =>
      cases hs : w.fs (sentinelPath (jobDir job.ID)) with
      | none =>
        refine Or.inr (Or.inl ⟨rfl, rfl, ?_⟩)
        simp [hs]
      | some x =>
        refine Or.inl ⟨rfl, by simp, ?_⟩
        simp [hs]

theorem IsImageEvent.tail {tdir u : Str} {rest : List Str} {e : Event}
    (h : IsImageEvent tdir rest e) : IsImageEvent tdir (u :: rest) e := by
  obtain ⟨v, hv, hx⟩ := h
  exact ⟨v, List.mem_cons_of_mem _ hv, hx⟩

/-- The image loop touches neither the run-state flag nor the record of calls,
and it changes the file system only at the destinations of accepted names. -/
theorem imageLoop_frame (env : Env) (tdir : Str) (urls : List Str) (w : World) :
    (imageLoop env tdir urls w).2.activeJob = w.activeJob ∧
    (imageLoop env tdir urls w).2.calls = w.calls ∧
    ∀ p, (∀ u ∈ urls, fnamePattern.matchString (lastSegment u) = true →
        p ≠ imageDest tdir (lastSegment u)) →
      (imageLoop env tdir urls w).2.fs p = w.fs p := by
  induction urls generalizing w with
  | nil => exact ⟨rfl, rfl, fun _ _ => rfl⟩
  | cons u rest ih =>
    rcases imageLoop_cons_cases env tdir u rest w with
      ⟨_, h⟩ | ⟨_, e, h⟩ | ⟨_, e, d, h⟩ | ⟨hv, d, h⟩
    · rw [h]; exact ⟨rfl, rfl, fun _ _ => rfl⟩
    · rw [h]; exact ⟨rfl, rfl, fun _ _ => rfl⟩
    · rw [h]; exact ⟨rfl, rfl, fun _ _ => rfl⟩
    · rw [h]
      obtain ⟨h1, h2, h3⟩ := ih (((logToWindow ("[200] ".toList ++ lastSegment u) w).emit
        (.getImage u (some d))).stored (imageDest tdir (lastSegment u)) d)
      refine ⟨h1, h2, ?_⟩
      intro p hp
      rw [h3 p (fun v hv => hp v (List.mem_cons_of_mem _ hv))]
      have := hp u (List.mem_cons_self _ _) hv
      simp [setPath, this]

/-- The operations the image loop issues. -/
theorem imageLoop_trace (env : Env) (tdir : Str) (urls : List Str) (w : World) :
    ∃ T, (imageLoop env tdir urls w).2.trace = w.trace ++ T ∧
      (∀ e ∈ T, IsImageEvent tdir urls e) ∧
      (∃ rest, urls = imageURLs T ++ rest) ∧
      ((imageLoop env tdir urls w).1 = .returned →
        (∀ u ∈ urls, fnamePattern.matchString (lastSegment u) = true) ∧
        ∃ payloads : List Bytes, payloads.length = urls.length ∧
          T = (urls.zip payloads).flatMap fun x => downloadEvents tdir x.1 x.2) ∧
      ((imageLoop env tdir urls w).1 ≠ .returned →
        ∀ p d, Event.writeFile p d true ∈ T → ∃ u ∈ urls,
          fnamePattern.matchString (lastSegment u) = true ∧
            p = imageDest tdir (lastSegment u)) := by
  induction urls generalizing w with
  | nil =>
    refine ⟨[], by simp [imageLoop], by simp, ⟨[], rfl⟩, fun _ => ⟨by simp, [], rfl, rfl⟩, ?_⟩
    simp
  | cons u rest ih =>
    rcases imageLoop_cons_cases env tdir u rest w with
      ⟨_, h⟩ | ⟨hv, e, h⟩ | ⟨hv, e, d, h⟩ | ⟨hv, d, h⟩
    · rw [h]
      refine ⟨[], by simp, by simp, ⟨u :: rest, rfl⟩, by simp, by simp⟩
    · rw [h]
      refine ⟨[.getImage u none], by simp, ?_, ⟨rest, rfl⟩, by simp, by simp⟩
      intro e he
      rw [List.mem_singleton] at he
      exact ⟨u, List.mem_cons_self _ _, hv, Or.inl ⟨none, he⟩⟩
    · rw [h]
      refine ⟨[.getImage u (some d), .writeFile (imageDest tdir (lastSegment u)) d false],
        by simp, ?_, ⟨rest, rfl⟩, by simp, by simp⟩
      intro e he
      simp only [List.mem_cons, List.mem_singleton, List.not_mem_nil, or_false] at he
      rcases he with rfl | rfl
      · exact ⟨u, List.mem_cons_self _ _, hv, Or.inl ⟨_, rfl⟩⟩
      · exact ⟨u, List.mem_cons_self _ _, hv, Or.inr ⟨_, _, rfl⟩⟩
    · rw [h]
      obtain ⟨T, hT, hmem, ⟨rest2, hrest⟩, hret, hnot⟩ :=
        ih (((logToWindow ("[200] ".toList ++ lastSegment u) w).emit
          (.getImage u (some d))).stored (imageDest tdir (lastSegment u)) d)
      refine ⟨downloadEvents tdir u d ++ T, by rw [hT]; simp [downloadEvents], ?_, ⟨rest2, ?_⟩,
        ?_, ?_⟩
      · intro e he
        rcases List.mem_append.mp he with he | he
        · simp only [downloadEvents, List.mem_cons, List.mem_singleton, List.not_mem_nil,
            or_false] at he
          rcases he with rfl | rfl
          · exact ⟨u, List.mem_cons_self _ _, hv, Or.inl ⟨_, rfl⟩⟩
          · exact ⟨u, List.mem_cons_self _ _, hv, Or.inr ⟨_, _, rfl⟩⟩
        · exact (hmem e he).tail
      · simp only [downloadEvents, List.cons_append, List.nil_append, imageURLs]
        exact congrArg _ hrest
      · intro hr
        obtain ⟨hall, payloads, hlen, hTeq⟩ := hret hr
        refine ⟨?_, d :: payloads, by simp [hlen], by simp [hTeq]⟩
        intro v hv2
        rcases List.mem_cons.mp hv2 with rfl | hv2
        · exact hv
        · exact hall v hv2
      · intro hr p d2 hp
        rcases List.mem_append.mp hp with hp | hp
        · simp only [downloadEvents, List.mem_cons, List.mem_singleton, List.not_mem_nil,
            or_false] at hp
          rcases hp with hp | hp
          · exact absurd hp (by simp)
          · injection hp with hp1 _ _
            exact ⟨u, List.mem_cons_self _ _, hv, hp1⟩
        · obtain ⟨v, hv2, hx⟩ := hnot hr p d2 hp
          exact ⟨v, List.mem_cons_of_mem _ hv2, hx⟩

theorem imageURLs_append (a b : List Event) : imageURLs (a ++ b) = imageURLs a ++ imageURLs b := by
  induction a with
  | nil => rfl
  | cons e t ih => cases e <;> simp [imageURLs, ih]

theorem completed_not_image : fnamePattern.matchString
    ['c', 'o', 'm', 'p', 'l', 'e', 't', 'e', 'd'] = false := by decide

theorem jobJson_not_image : fnamePattern.matchString
    ['j', 'o', 'b', '.', 'j', 's', 'o', 'n'] = false := by decide

theorem sentinel_ne_imageDest (tdir f : Str) (h : fnamePattern.matchString f = true) :
    sentinelPath tdir ≠ imageDest tdir f := by
  intro he
  have := List.append_cancel_left he
  injection this with _ hf
  rw [← hf, completed_not_image] at h
  exact absurd h (by simp)

theorem jobFile_ne_imageDest (tdir f : Str) (h : fnamePattern.matchString f = true) :
    jobFilePath tdir ≠ imageDest tdir f := by
  intro he
  have := List.append_cancel_left he
  injection this with _ hf
  rw [← hf, jobJson_not_image] at h
  exact absurd h (by simp)

theorem sentinel_ne_jobFile (tdir : Str) : sentinelPath tdir ≠ jobFilePath tdir := by
  intro he
  have := List.append_cancel_left he
  exact absurd this (by decide)

theorem sentinel_ne_dir (tdir : Str) : sentinelPath tdir ≠ tdir := by
  intro he
  have := congrArg List.length he
  simp [sentinelPath] at this

theorem not_imageEvent_sentinel (tdir : Str) (urls : List Str) (d : Bytes) (ok : Bool) :
    ¬ IsImageEvent tdir urls (.writeFile (sentinelPath tdir) d ok) := by
  rintro ⟨u, _, hv, ⟨b, hb⟩ | ⟨d2, ok2, hb⟩⟩
  · exact absurd hb (by simp)
  · injection hb with hp _ _
    exact sentinel_ne_imageDest tdir _ hv hp

theorem parentOK_sentinel (fs : Str → Option Node) (tdir : Str)
    (h : parentOK fs (sentinelPath tdir) = true) : fs tdir = some .dir := by
  simpa [parentOK, parentDir_sentinel] using h

/-- What the second half of `processJob` does: either it returns, and then
`job.json`, every image in listing order and the sentinel have been written;
or the process terminates and the sentinel is as it was. -/
theorem finishJob_spec (env : Env) (job : Job) (tdir : Str) (w : World) :
    ∃ T, (finishJob env job tdir w).2.trace = w.trace ++ T ∧
      (∃ rest, job.ImagePaths = imageURLs T ++ rest) ∧
      (finishJob env job tdir w).2.activeJob = w.activeJob ∧
      (finishJob env job tdir w).2.calls = w.calls ∧
      (((finishJob env job tdir w).1 = .returned ∧
          (finishJob env job tdir w).2.fs tdir = some .dir ∧
          (finishJob env job tdir w).2.fs (sentinelPath tdir) = some (.file []) ∧
          (∀ u ∈ job.ImagePaths, fnamePattern.matchString (lastSegment u) = true) ∧
          ∃ (js : Bytes) (payloads : List Bytes), payloads.length = job.ImagePaths.length ∧
            T = .writeFile (jobFilePath tdir) js true ::
              ((job.ImagePaths.zip payloads).flatMap fun x => downloadEvents tdir x.1 x.2) ++
                [.writeFile (sentinelPath tdir) [] true]) ∨
        ((finishJob env job tdir w).1 ≠ .returned ∧
          (finishJob env job tdir w).2.fs (sentinelPath tdir) = w.fs (sentinelPath tdir) ∧
          ∀ d, Event.writeFile (sentinelPath tdir) d true ∉ T)) := by
  rcases finishJob_cases env job tdir w with ⟨e, h⟩ | ⟨js, e, h⟩ | ⟨js, hp, hc⟩
  · rw [h]
    exact ⟨[], by simp, ⟨_, rfl⟩, rfl, rfl, Or.inr ⟨by simp, rfl, by simp⟩⟩
  · rw [h]
    exact ⟨[.writeFile (jobFilePath tdir) js false], by simp, ⟨_, rfl⟩, rfl, rfl,
      Or.inr ⟨by simp, rfl, by simp⟩⟩
  · obtain ⟨TI, hTI, hmem, ⟨rest, hrest⟩, hret, _⟩ :=
      imageLoop_trace env tdir job.ImagePaths (w.stored (jobFilePath tdir) js)
    obtain ⟨fa, fc, ffs⟩ := imageLoop_frame env tdir job.ImagePaths (w.stored (jobFilePath tdir) js)
    have hsent : (imageLoop env tdir job.ImagePaths (w.stored (jobFilePath tdir) js)).2.fs
        (sentinelPath tdir) = w.fs (sentinelPath tdir) := by
      rw [ffs _ (fun u _ hv => sentinel_ne_imageDest tdir _ hv)]
      simp [setPath, sentinel_ne_jobFile]
    have hnoTI : ∀ d ok, Event.writeFile (sentinelPath tdir) d ok ∉ TI :=
      fun d ok hin => not_imageEvent_sentinel tdir _ d ok (hmem _ hin)
    rcases hc with ⟨hne, h⟩ | ⟨hr, ⟨e, h⟩ | ⟨hp2, h⟩⟩
    · rw [h]
      refine ⟨.writeFile (jobFilePath tdir) js true :: TI, by rw [hTI]; simp, ⟨rest, ?_⟩, fa, fc,
        Or.inr ⟨hne, hsent, ?_⟩⟩
      · simpa [imageURLs] using hrest
      · intro d hin
        rcases List.mem_cons.mp hin with hin | hin
        · injection hin with hpath _ _
          exact sentinel_ne_jobFile tdir hpath
        · exact hnoTI d true hin
    · rw [h]
      refine ⟨.writeFile (jobFilePath tdir) js true :: TI ++
          [.writeFile (sentinelPath tdir) [] false], by simp [hTI], ⟨rest, ?_⟩, fa, fc,
        Or.inr ⟨by simp, hsent, ?_⟩⟩
      · simpa [imageURLs, imageURLs_append] using hrest
      · intro d hin
        simp only [List.cons_append, List.mem_cons, List.mem_append, List.mem_singleton,
          List.not_mem_nil, or_false] at hin
        rcases hin with hin | hin | hin
        · injection hin with hpath _ _
          exact sentinel_ne_jobFile tdir hpath
        · exact hnoTI d true hin
        · injection hin with _ _ hok
          exact absurd hok (by simp)
    · rw [h]
      obtain ⟨hall, payloads, hlen, hTeq⟩ := hret hr
      refine ⟨.writeFile (jobFilePath tdir) js true :: TI ++
          [.writeFile (sentinelPath tdir) [] true], by simp [hTI], ⟨rest, ?_⟩, fa, fc,
        Or.inl ⟨rfl, ?_, by simp [setPath], hall, js, payloads, hlen, by rw [hTeq]⟩⟩
      · simpa [imageURLs, imageURLs_append] using hrest
      · have := parentOK_sentinel _ tdir hp2
        simp [setPath, this, (sentinel_ne_dir tdir).symm]

theorem downloadEvents_mem (tdir : Str) (urls : List Str) (payloads : List Bytes)
    (hlen : payloads.length = urls.length) :
    ∀ u ∈ urls, ∃ d,
      Event.getImage u (some d) ∈
          ((urls.zip payloads).flatMap fun x => downloadEvents tdir x.1 x.2) ∧
        Event.writeFile (imageDest tdir (lastSegment u)) d true ∈
          ((urls.zip payloads).flatMap fun x => downloadEvents tdir x.1 x.2) := by
  induction urls generalizing payloads with
  | nil => simp
  | cons v rest ih =>
    cases payloads with
    | nil => simp at hlen
    | cons d ps =>
      intro u hu
      rcases List.mem_cons.mp hu with rfl | hu
      · exact ⟨d, by simp [downloadEvents], by simp [downloadEvents]⟩
      · obtain ⟨d2, h1, h2⟩ := ih ps (by simpa using hlen) u hu
        refine ⟨d2, ?_, ?_⟩
        · simp only [List.zip_cons_cons, List.flatMap_cons, List.mem_append]
          exact Or.inr h1
        · simp only [List.zip_cons_cons, List.flatMap_cons, List.mem_append]
          exact Or.inr h2

/-- The second half of `processJob`, started after the header `hdr` in a world
without the sentinel. -/
theorem finishJob_from (env : Env) (job : Job) (tdir : Str) (w W : World) (hdr : List Event)
    (hW : W.trace = w.trace ++ hdr) (hhdr : IsHeader tdir hdr)
    (hs : W.fs (sentinelPath tdir) = none) :
    ∃ T, (finishJob env job tdir W).2.trace = w.trace ++ T ∧
      (∃ rest, job.ImagePaths = imageURLs T ++ rest) ∧
      ((finishJob env job tdir W).2.fs (sentinelPath tdir) ≠ none ↔
        (finishJob env job tdir W).1 = .returned) ∧
      ((finishJob env job tdir W).1 = .returned ↔ Succeeded tdir job T) ∧
      ((finishJob env job tdir W).1 = .returned →
        ∃ (hdr : List Event) (js : Bytes) (payloads : List Bytes),
          IsHeader tdir hdr ∧ payloads.length = job.ImagePaths.length ∧
          T = hdr ++ .writeFile (jobFilePath tdir) js true ::
            ((job.ImagePaths.zip payloads).flatMap fun x => downloadEvents tdir x.1 x.2) ++
              [.writeFile (sentinelPath tdir) [] true]) := by
  obtain ⟨TF, hTF, ⟨rest, hrest⟩, _, _, hcase⟩ := finishJob_spec env job tdir W
  have hurl : imageURLs hdr = [] := by
    rcases hhdr with rfl | rfl <;> rfl
  have hnohdr : ∀ p d ok, Event.writeFile p d ok ∉ hdr := by
    intro p d ok
    rcases hhdr with rfl | rfl <;> simp
  refine ⟨hdr ++ TF, by rw [hTF, hW, List.append_assoc], ⟨rest, ?_⟩, ?_⟩
  · rw [imageURLs_append, hurl]
    exact hrest
  rcases hcase with ⟨hr, _, hsent, hall, js, payloads, hlen, hT⟩ | ⟨hne, hsent, hno⟩
  · refine ⟨by simp [hr, hsent], ?_, fun _ => ⟨hdr, js, payloads, hhdr, hlen, by rw [hT]; simp⟩⟩
    refine ⟨fun _ => ⟨⟨js, ?_⟩, hall, ?_, ?_⟩, fun _ => hr⟩
    · rw [hT]; simp
    · intro u hu
      obtain ⟨d, h1, h2⟩ := downloadEvents_mem tdir job.ImagePaths payloads hlen u hu
      refine ⟨d, ?_, ?_⟩
      · rw [hT]
        simp only [List.mem_append, List.mem_cons]
        exact Or.inr (Or.inl (Or.inr h1))
      · rw [hT]
        simp only [List.mem_append, List.mem_cons]
        exact Or.inr (Or.inl (Or.inr h2))
    · rw [hT]; simp
  · refine ⟨by simp [hne, hsent, hs], ⟨fun h => absurd h hne, ?_⟩, fun h => absurd h hne⟩
    rintro ⟨_, _, _, hin⟩
    rcases List.mem_append.mp hin with hin | hin
    · exact absurd hin (hnohdr _ _ _)
    · exact absurd hin (hno _)

theorem processJob_skip (env : Env) (job : Job) (w : World)
    (hid : jobIDPattern.matchString job.ID = true)
    (hdir : w.fs (jobDir job.ID) = some .dir)
    (hsent : w.fs (sentinelPath (jobDir job.ID)) ≠ none) :
    processJob env job w = (.returned,
      logToWindow ("Skipping ".toList ++ job.ID ++ " -- already downloaded.".toList)
        (({ w with calls := w.calls ++ [job] }.emit (.stat (jobDir job.ID))).emit
          (.stat (sentinelPath (jobDir job.ID))))) := by
  rcases processJob_cases env job w hid with ⟨_, _, h⟩ | ⟨_, h2, _⟩ | ⟨h1, _⟩
  · exact h
  · exact absurd h2 hsent
  · exact absurd hdir h1

/-- After a call that returned on a job whose identifier passes the check, the
directory of the job and its sentinel exist. -/
theorem processJob_returned_done (env : Env) (job : Job) (w : World)
    (hid : jobIDPattern.matchString job.ID = true)
    (hr : (processJob env job w).1 = .returned) :
    (processJob env job w).2.fs (jobDir job.ID) = some .dir ∧
      (processJob env job w).2.fs (sentinelPath (jobDir job.ID)) ≠ none := by
  rcases processJob_cases env job w hid with ⟨h1, h2, h⟩ | ⟨_, _, h⟩ | ⟨_, h⟩
  · rw [h]
    exact ⟨h1, h2⟩
  · rw [h] at hr ⊢
    obtain ⟨T, _, _, _, _, hc⟩ := finishJob_spec env job (jobDir job.ID) _
    rcases hc with ⟨_, hd, hs, _⟩ | ⟨hne, _⟩
    · exact ⟨hd, by rw [hs]; exact Option.some_ne_none _⟩
    · exact absurd hr hne
  · rw [h] at hr ⊢
    obtain ⟨T, _, _, _, _, hc⟩ := finishJob_spec env job (jobDir job.ID) _
    rcases hc with ⟨_, hd, hs, _⟩ | ⟨hne, _⟩
    · exact ⟨hd, by rw [hs]; exact Option.some_ne_none _⟩
    · exact absurd hr hne

theorem finishJob_events (env : Env) (job : Job) (tdir : Str) (w : World) :
    ∃ T, (finishJob env job tdir w).2.trace = w.trace ++ T ∧ ∀ e ∈ T, IsJobEvent tdir job e := by
  rcases finishJob_cases env job tdir w with ⟨e, h⟩ | ⟨js, e, h⟩ | ⟨js, hp, hc⟩
  · rw [h]
    exact ⟨[], by simp, by simp⟩
  · rw [h]
    refine ⟨[.writeFile (jobFilePath tdir) js false], by simp, ?_⟩
    intro e he
    rw [List.mem_singleton] at he
    exact Or.inr (Or.inr (Or.inr (Or.inl ⟨_, _, he⟩)))
  · obtain ⟨TI, hTI, hmem, _⟩ :=
      imageLoop_trace env tdir job.ImagePaths (w.stored (jobFilePath tdir) js)
    have hfirst : IsJobEvent tdir job (.writeFile (jobFilePath tdir) js true) :=
      Or.inr (Or.inr (Or.inr (Or.inl ⟨_, _, rfl⟩)))
    have himg : ∀ e ∈ TI, IsJobEvent tdir job e :=
      fun e he => Or.inr (Or.inr (Or.inr (Or.inr (Or.inl (hmem e he)))))
    rcases hc with ⟨_, h⟩ | ⟨_, ⟨e, h⟩ | ⟨_, h⟩⟩
    · rw [h]
      refine ⟨.writeFile (jobFilePath tdir) js true :: TI, by rw [hTI]; simp, ?_⟩
      intro e he
      rcases List.mem_cons.mp he with rfl | he
      · exact hfirst
      · exact himg e he
    · rw [h]
      refine ⟨.writeFile (jobFilePath tdir) js true :: TI ++
        [.writeFile (sentinelPath tdir) [] false], by simp [hTI], ?_⟩
      intro e he
      simp only [List.cons_append, List.mem_cons, List.mem_append, List.mem_singleton,
        List.not_mem_nil, or_false] at he
      rcases he with rfl | he | rfl
      · exact hfirst
      · exact himg e he
      · exact Or.inr (Or.inr (Or.inr (Or.inr (Or.inr ⟨_, rfl⟩))))
    · rw [h]
      refine ⟨.writeFile (jobFilePath tdir) js true :: TI ++
        [.writeFile (sentinelPath tdir) [] true], by simp [hTI], ?_⟩
      intro e he
      simp only [List.cons_append, List.mem_cons, List.mem_append, List.mem_singleton,
        List.not_mem_nil, or_false] at he
      rcases he with rfl | he | rfl
      · exact hfirst
      · exact himg e he
      · exact Or.inr (Or.inr (Or.inr (Or.inr (Or.inr ⟨_, rfl⟩))))

/-- Every operation a call of `processJob` issues belongs to the job. -/
theorem processJob_events (env : Env) (job : Job) (w : World) :
    ∃ T, (processJob env job w).2.trace = w.trace ++ T ∧
      ∀ e ∈ T, IsJobEvent (jobDir job.ID) job e := by
  cases hid : jobIDPattern.matchString job.ID with
  | false =>
    rw [processJob_invalid env job w hid]
    exact ⟨[], by simp, by simp⟩
  | true =>
    rcases processJob_cases env job w hid with ⟨_, _, h⟩ | ⟨_, _, h⟩ | ⟨_, h⟩
    · rw [h]
      refine ⟨[.stat (jobDir job.ID), .stat (sentinelPath (jobDir job.ID))], by simp, ?_⟩
      intro e he
      simp only [List.mem_cons, List.mem_singleton, List.not_mem_nil, or_false] at he
      rcases he with rfl | rfl
      · exact Or.inl rfl
      · exact Or.inr (Or.inl rfl)
    · rw [h]
      obtain ⟨T, hT, hmem⟩ := finishJob_events env job (jobDir job.ID)
        (logToWindow ("Warning: ".toList ++ job.ID ++
            " did not finish syncing. Will try again!".toList)
          (({ w with calls := w.calls ++ [job] }.emit (.stat (jobDir job.ID))).emit
            (.stat (sentinelPath (jobDir job.ID)))))
      refine ⟨[.stat (jobDir job.ID), .stat (sentinelPath (jobDir job.ID))] ++ T,
        by rw [hT]; simp, ?_⟩
      intro e he
      simp only [List.cons_append, List.nil_append, List.mem_cons] at he
      rcases he with rfl | rfl | he
      · exact Or.inl rfl
      · exact Or.inr (Or.inl rfl)
      · exact hmem e he
    · rw [h]
      obtain ⟨T, hT, hmem⟩ := finishJob_events env job (jobDir job.ID)
        (osMkdir env (jobDir job.ID)
          (logToWindow ("Téléchargement de ".toList ++ job.ID)
            ({ w with calls := w.calls ++ [job] }.emit (.stat (jobDir job.ID)))))
      refine ⟨[.stat (jobDir job.ID), .mkdir (jobDir job.ID)] ++ T,
        by rw [hT, osMkdir_trace]; simp, ?_⟩
      intro e he
      simp only [List.cons_append, List.nil_append, List.mem_cons] at he
      rcases he with rfl | rfl | he
      · exact Or.inl rfl
      · exact Or.inr (Or.inr (Or.inl rfl))
      · exact hmem e he

/-- A call of `processJob` records itself and keeps the run-state flag unless
the identifier fails the check, in which case it clears it. -/
theorem processJob_flag_calls (env : Env) (job : Job) (w : World) :
    (processJob env job w).2.calls = w.calls ++ [job] ∧
      (processJob env job w).2.activeJob =
        (w.activeJob && jobIDPattern.matchString job.ID) := by
  cases hid : jobIDPattern.matchString job.ID with
  | false =>
    rw [processJob_invalid env job w hid]
    simp
  | true =>
    rcases processJob_cases env job w hid with ⟨_, _, h⟩ | ⟨_, _, h⟩ | ⟨_, h⟩
    · rw [h]
      simp
    · rw [h]
      obtain ⟨_, _, _, ha, hc, _⟩ := finishJob_spec env job (jobDir job.ID)
        (logToWindow ("Warning: ".toList ++ job.ID ++
            " did not finish syncing. Will try again!".toList)
          (({ w with calls := w.calls ++ [job] }.emit (.stat (jobDir job.ID))).emit
            (.stat (sentinelPath (jobDir job.ID)))))
      rw [ha, hc]
      simp
    · rw [h]
      obtain ⟨_, _, _, ha, hc, _⟩ := finishJob_spec env job (jobDir job.ID)
        (osMkdir env (jobDir job.ID)
          (logToWindow ("Téléchargement de ".toList ++ job.ID)
            ({ w with calls := w.calls ++ [job] }.emit (.stat (jobDir job.ID)))))
      rw [ha, hc, osMkdir_activeJob, osMkdir_calls]
      simp

theorem uuid_chars (s : Str) (h : IsCanonicalUUID s) :
    ∀ c ∈ s, c = '-' ∨ isLowerHex c := by
  intro c hc
  obtain ⟨i, hi, hget⟩ := List.mem_iff_getElem.mp hc
  obtain ⟨c2, hc2, hx⟩ := h.2 i (by rw [← h.1]; exact hi)
  have hcc : c2 = c := by
    rw [List.getElem?_eq_getElem hi, hget] at hc2
    exact (Option.some.inj hc2).symm
  subst hcc
  split at hx
  · exact Or.inl hx
  · exact Or.inr hx

theorem fname_chars (f : Str) (h : IsImageFilename f) :
    ∀ c ∈ f, isDigitOrUnderscore c ∨ c = '.' ∨ c ∈ ['p', 'n', 'g', 'j', 'e', 'w', 'b'] := by
  obtain ⟨stem, ext, rfl, _, hstem, hext⟩ := h
  intro c hc
  rcases List.mem_append.mp hc with hc | hc
  · exact Or.inl (hstem c hc)
  · rcases List.mem_cons.mp hc with rfl | hc
    · exact Or.inr (Or.inl rfl)
    · right; right
      rcases hext with rfl | rfl | rfl | rfl <;> revert hc <;> simp <;> tauto

theorem uuid_no_slash (s : Str) (h : jobIDPattern.matchString s = true) :
    '/' ∉ s ∧ '\\' ∉ s := by
  have hc := uuid_chars s ((jobID_match_iff s).mp h)
  constructor
  · intro hin
    rcases hc _ hin with h1 | h1
    · exact absurd h1 (by decide)
    · unfold isLowerHex at h1
      revert h1
      decide
  · intro hin
    rcases hc _ hin with h1 | h1
    · exact absurd h1 (by decide)
    · unfold isLowerHex at h1
      revert h1
      decide

theorem fname_no_slash (f : Str) (h : fnamePattern.matchString f = true) :
    '/' ∉ f ∧ '\\' ∉ f := by
  have hc := fname_chars f ((fname_match_iff f).mp h)
  constructor
  · intro hin
    rcases hc _ hin with h1 | h1 | h1
    · unfold isDigitOrUnderscore at h1
      revert h1
      decide
    · exact absurd h1 (by decide)
    · revert h1
      decide
  · intro hin
    rcases hc _ hin with h1 | h1 | h1
    · unfold isDigitOrUnderscore at h1
      revert h1
      decide
    · exact absurd h1 (by decide)
    · revert h1
      decide

theorem splitSep_none (sep : Char) (a : Str) (h : sep ∉ a) : splitSep sep a = [a] := by
  induction a with
  | nil => rfl
  | cons c a ih =>
    simp only [List.mem_cons, not_or] at h
    have hc : ¬ c = sep := fun hc => h.1 hc.symm
    simp [splitSep, hc, ih h.2]

theorem splitSep_append (sep : Char) (a b : Str) (h : sep ∉ a) :
    splitSep sep (a ++ sep :: b) = a :: splitSep sep b := by
  induction a with
  | nil => simp [splitSep]
  | cons c a ih =>
    simp only [List.mem_cons, not_or] at h
    have hc : ¬ c = sep := fun hc => h.1 hc.symm
    simp [splitSep, hc, ih h.2]

/-- The image loop fetches and stores the entries in listing order up to its
first failing step. -/
theorem imageLoop_stops (env : Env) (tdir : Str) (urls : List Str) (w : World) :
    ∃ T, (imageLoop env tdir urls w).2.trace = w.trace ++ T ∧
      StopsAtFirstFailure tdir urls (imageLoop env tdir urls w).1 T := by
  induction urls generalizing w with
  | nil =>
    exact ⟨[], by simp [imageLoop], 0, [], [], rfl, by simp, by simp, by simp,
      Or.inl ⟨rfl, rfl, rfl⟩⟩
  | cons u rest ih =>
    rcases imageLoop_cons_cases env tdir u rest w with
      ⟨hv, h⟩ | ⟨hv, e, h⟩ | ⟨hv, e, d, h⟩ | ⟨hv, d, h⟩
    · rw [h]
      exact ⟨[], by simp, 0, [], [], rfl, by simp, by simp, by simp,
        Or.inr (Or.inl ⟨u, by simp, hv, rfl, rfl⟩)⟩
    · rw [h]
      exact ⟨[.getImage u none], by simp, 0, [], _, rfl, by simp, by simp, by simp,
        Or.inr (Or.inr (Or.inl ⟨u, e, by simp, hv, rfl, rfl⟩))⟩
    · rw [h]
      exact ⟨[.getImage u (some d), .writeFile (imageDest tdir (lastSegment u)) d false],
        by simp, 0, [], _, rfl, by simp, by simp, by simp,
        Or.inr (Or.inr (Or.inr ⟨u, e, d, by simp, hv, rfl, rfl⟩))⟩
    · rw [h]
      obtain ⟨T, hT, k, payloads, tail, hlen, hk, hall, hTeq, hend⟩ :=
        ih (((logToWindow ("[200] ".toList ++ lastSegment u) w).emit
          (.getImage u (some d))).stored (imageDest tdir (lastSegment u)) d)
      refine ⟨downloadEvents tdir u d ++ T, by rw [hT]; simp [downloadEvents], k + 1,
        d :: payloads, tail, by simp [hlen], by simp only [List.length_cons]; omega, ?_, ?_, ?_⟩
      · intro v hv2
        simp only [List.take_succ_cons, List.mem_cons] at hv2
        rcases hv2 with rfl | hv2
        · exact hv
        · exact hall v hv2
      · rw [hTeq]
        simp
      · rcases hend with ⟨h1, h2, h3⟩ | ⟨v, h1, h2⟩ | ⟨v, e, h1, h2⟩ | ⟨v, e, d2, h1, h2⟩
        · exact Or.inl ⟨by simp [h1], h2, h3⟩
        · exact Or.inr (Or.inl ⟨v, by simpa using h1, h2⟩)
        · exact Or.inr (Or.inr (Or.inl ⟨v, e, by simpa using h1, h2⟩))
        · exact Or.inr (Or.inr (Or.inr ⟨v, e, d2, by simpa using h1, h2⟩))

/-- The second half of `processJob` runs up to its first failing step. -/
theorem finishJob_run (env : Env) (job : Job) (tdir : Str) (w : World) :
    ∃ T, (finishJob env job tdir w).2.trace = w.trace ++ T ∧
      FinishRun tdir job (finishJob env job tdir w).1 T := by
  rcases finishJob_cases env job tdir w with ⟨e, h⟩ | ⟨js, e, h⟩ | ⟨js, _, hc⟩
  · rw [h]
    exact ⟨[], by simp, Or.inl ⟨e, rfl, rfl⟩⟩
  · rw [h]
    exact ⟨_, by simp, Or.inr (Or.inl ⟨js, e, rfl, rfl⟩)⟩
  · obtain ⟨TI, hTI, hstop⟩ :=
      imageLoop_stops env tdir job.ImagePaths (w.stored (jobFilePath tdir) js)
    rcases hc with ⟨hne, h⟩ | ⟨hr, ⟨e, h⟩ | ⟨_, h⟩⟩
    · rw [h]
      exact ⟨.writeFile (jobFilePath tdir) js true :: (TI ++ []), by rw [hTI]; simp,
        Or.inr (Or.inr ⟨js, _, TI, [], hstop, rfl, Or.inl ⟨hne, rfl, rfl⟩⟩)⟩
    · rw [h]
      exact ⟨.writeFile (jobFilePath tdir) js true ::
          (TI ++ [.writeFile (sentinelPath tdir) [] false]), by simp [hTI],
        Or.inr (Or.inr ⟨js, _, TI, _, hstop, rfl, Or.inr (Or.inl ⟨hr, ⟨e, rfl⟩, rfl⟩)⟩)⟩
    · rw [h]
      exact ⟨.writeFile (jobFilePath tdir) js true ::
          (TI ++ [.writeFile (sentinelPath tdir) [] true]), by simp [hTI],
        Or.inr (Or.inr ⟨js, _, TI, _, hstop, rfl, Or.inr (Or.inr ⟨hr, rfl, rfl⟩)⟩)⟩

/-- A call of `processJob` on a job whose identifier passes the check either
skips the job after the two look-ups or runs up to its first failing step. -/
theorem processJob_run (env : Env) (job : Job) (w : World)
    (hid : jobIDPattern.matchString job.ID = true) :
    ∃ T, (processJob env job w).2.trace = w.trace ++ T ∧
      ((w.fs (sentinelPath (jobDir job.ID)) ≠ none ∧
          T = [.stat (jobDir job.ID), .stat (sentinelPath (jobDir job.ID))]) ∨
        JobRun (jobDir job.ID) job (processJob env job w).1 T) := by
  rcases processJob_cases env job w hid with ⟨_, h2, h⟩ | ⟨_, _, h⟩ | ⟨_, h⟩
  · rw [h]
    exact ⟨_, by simp, Or.inl ⟨h2, rfl⟩⟩
  · rw [h]
    obtain ⟨TF, hTF, hrun⟩ := finishJob_run env job (jobDir job.ID)
      (logToWindow ("Warning: ".toList ++ job.ID ++
          " did not finish syncing. Will try again!".toList)
        (({ w with calls := w.calls ++ [job] }.emit (.stat (jobDir job.ID))).emit
          (.stat (sentinelPath (jobDir job.ID)))))
    exact ⟨[.stat (jobDir job.ID), .stat (sentinelPath (jobDir job.ID))] ++ TF,
      by rw [hTF]; simp, Or.inr ⟨_, TF, Or.inl rfl, rfl, hrun⟩⟩
  · rw [h]
    obtain ⟨TF, hTF, hrun⟩ := finishJob_run env job (jobDir job.ID)
      (osMkdir env (jobDir job.ID)
        (logToWindow ("Téléchargement de ".toList ++ job.ID)
          ({ w with calls := w.calls ++ [job] }.emit (.stat (jobDir job.ID)))))
    exact ⟨[.stat (jobDir job.ID), .mkdir (jobDir job.ID)] ++ TF,
      by rw [hTF, osMkdir_trace]; simp, Or.inr ⟨_, TF, Or.inr rfl, rfl, hrun⟩⟩

theorem osWriteFile_ok (env : Env) (path : Str) (data : Bytes) (w : World)
    (hf : env.diskFault w.tick path = none) (hp : parentOK w.fs path = true)
    (hd : w.fs path ≠ some .dir) :
    osWriteFile env path data w = (none, w.stored path data) := by
  unfold osWriteFile
  rw [hf]
  simp [hp, hd]

theorem osMkdir_ok (env : Env) (path : Str) (w : World)
    (hf : env.diskFault w.tick path = none) (hp : parentOK w.fs path = true)
    (hn : w.fs path = none) :
    (osMkdir env path w).fs = setPath w.fs path (some .dir) := by
  unfold osMkdir
  simp [hf, hp, hn]

theorem imageDest_ne_dir (tdir f : Str) : imageDest tdir f ≠ tdir := by
  intro he
  have := congrArg List.length he
  simp [imageDest] at this

theorem jobFile_ne_dir (tdir : Str) : jobFilePath tdir ≠ tdir := by
  intro he
  have := congrArg List.length he
  simp [jobFilePath] at this

theorem parentOK_imageDest (fs : Str → Option Node) (tdir f : Str)
    (hf : fnamePattern.matchString f = true) (hdir : fs tdir = some .dir) :
    parentOK fs (imageDest tdir f) = true := by
  unfold parentOK imageDest
  rw [parentDir_append tdir f (fname_no_slash f hf).1]
  simp [hdir]

/-- When no disk operation meets a fault, every image can be fetched, every
name passes the check, the directory exists and no destination is a directory,
the image loop comes to its end. -/
theorem imageLoop_complete (env : Env) (tdir : Str) (urls : List Str) (w : World)
    (hfault : ∀ t p, env.diskFault t p = none)
    (himg : ∀ t, ∀ u ∈ urls, ∃ d, env.image t u = .ok d)
    (hall : ∀ u ∈ urls, fnamePattern.matchString (lastSegment u) = true)
    (hdir : w.fs tdir = some .dir)
    (hnd : ∀ u ∈ urls, w.fs (imageDest tdir (lastSegment u)) ≠ some .dir) :
    (imageLoop env tdir urls w).1 = .returned := by
  induction urls generalizing w with
  | nil => rfl
  | cons u rest ih =>
    have hv := hall u (List.mem_cons_self _ _)
    obtain ⟨d, hd⟩ := himg (logToWindow ("[200] ".toList ++ lastSegment u) w).tick u
      (List.mem_cons_self _ _)
    rw [imageLoop_valid env tdir u rest w hv]
    have hdl : downloadImage env u (imageDest tdir (lastSegment u))
        (logToWindow ("[200] ".toList ++ lastSegment u) w) =
        (none, ((logToWindow ("[200] ".toList ++ lastSegment u) w).emit
          (.getImage u (some d))).stored (imageDest tdir (lastSegment u)) d) := by
      unfold downloadImage
      rw [hd]
      exact osWriteFile_ok env _ d _ (hfault _ _)
        (parentOK_imageDest _ tdir _ hv hdir) (hnd u (List.mem_cons_self _ _))
    rw [hdl]
    apply ih
    · intro t v hv2
      exact himg t v (List.mem_cons_of_mem _ hv2)
    · intro v hv2
      exact hall v (List.mem_cons_of_mem _ hv2)
    · simp only [stored_fs, setPath, emit_fs, log_fs]
      rw [if_neg (imageDest_ne_dir tdir _).symm]
      exact hdir
    · intro v hv2
      simp only [stored_fs, setPath, emit_fs, log_fs]
      split
      · simp
      · exact hnd v (List.mem_cons_of_mem _ hv2)

/-- Under the same conditions, with the job serialisable and neither `job.json`
nor the sentinel a directory, the second half of `processJob` returns. -/
theorem finishJob_complete (env : Env) (job : Job) (tdir : Str) (w : World)
    (hjs : ∃ js, env.jsonMarshal job = .ok js)
    (hfault : ∀ t p, env.diskFault t p = none)
    (himg : ∀ t, ∀ u ∈ job.ImagePaths, ∃ d, env.image t u = .ok d)
    (hall : ∀ u ∈ job.ImagePaths, fnamePattern.matchString (lastSegment u) = true)
    (hdir : w.fs tdir = some .dir)
    (hjf : w.fs (jobFilePath tdir) ≠ some .dir)
    (hnd : ∀ u ∈ job.ImagePaths, w.fs (imageDest tdir (lastSegment u)) ≠ some .dir)
    (hs : w.fs (sentinelPath tdir) ≠ some .dir) :
    (finishJob env job tdir w).1 = .returned := by
  obtain ⟨js, hjs⟩ := hjs
  have hpj : parentOK w.fs (jobFilePath tdir) = true := by
    simp [parentOK, parentDir_jobFile, hdir]
  have hloop : (imageLoop env tdir job.ImagePaths (w.stored (jobFilePath tdir) js)).1 =
      .returned := by
    apply imageLoop_complete env tdir job.ImagePaths _ hfault himg hall
    · simp only [stored_fs, setPath]
      rw [if_neg (jobFile_ne_dir tdir).symm]
      exact hdir
    · intro u hu
      simp only [stored_fs, setPath]
      rw [if_neg (jobFile_ne_imageDest tdir _ (hall u hu)).symm]
      exact hnd u hu
  obtain ⟨_, _, hfs⟩ := imageLoop_frame env tdir job.ImagePaths (w.stored (jobFilePath tdir) js)
  unfold finishJob
  rw [hjs]
  simp only [osWriteFile_ok env (jobFilePath tdir) js w (hfault _ _) hpj hjf]
  rcases hl : imageLoop env tdir job.ImagePaths (w.stored (jobFilePath tdir) js) with ⟨o, w2⟩
  rw [hl] at hloop hfs
  simp only at hloop hfs
  subst hloop
  simp only
  have h2dir : w2.fs tdir = some .dir := by
    rw [hfs tdir (fun u _ _ => (imageDest_ne_dir tdir _).symm)]
    simp only [stored_fs, setPath]
    rw [if_neg (jobFile_ne_dir tdir).symm]
    exact hdir
  have h2s : w2.fs (sentinelPath tdir) ≠ some .dir := by
    rw [hfs _ (fun u _ hv => sentinel_ne_imageDest tdir _ hv)]
    simp only [stored_fs, setPath]
    rw [if_neg (sentinel_ne_jobFile tdir)]
    exact hs
  have hps : parentOK w2.fs (sentinelPath tdir) = true := by
    simp [parentOK, parentDir_sentinel, h2dir]
  rw [osWriteFile_ok env (sentinelPath tdir) [] w2 (hfault _ _) hps h2s]

/-- When nothing outside the program fails for a job whose identifier passes
the check and whose sentinel is absent, `processJob` returns. -/
theorem processJob_complete (env : Env) (job : Job) (w : World)
    (hid : jobIDPattern.matchString job.ID = true)
    (hsent : w.fs (sentinelPath (jobDir job.ID)) = none)
    (hok : NothingFails env job w) :
    (processJob env job w).1 = .returned := by
  obtain ⟨hjs, hfault, himg, hall, hd, hjf, hnd⟩ := hok
  rcases processJob_cases env job w hid with ⟨_, h2, _⟩ | ⟨hdir, _, h⟩ | ⟨hndir, h⟩
  · exact absurd hsent h2
  · rw [h]
    exact finishJob_complete env job (jobDir job.ID) _ hjs hfault himg hall hdir hjf hnd
      (by simp only [log_fs, emit_fs]; rw [hsent]; simp)
  · rw [h]
    rcases hd with hd | ⟨hnone, hjobs⟩
    · exact absurd hd hndir
    · have hpar : parentOK w.fs (jobDir job.ID) = true := by
        unfold parentOK jobDir
        rw [parentDir_append jobsDir job.ID (uuid_no_slash job.ID hid).1]
        simp [hjobs]
      have hfs : (osMkdir env (jobDir job.ID)
          (logToWindow ("Téléchargement de ".toList ++ job.ID)
            ({ w with calls := w.calls ++ [job] }.emit (.stat (jobDir job.ID))))).fs =
          setPath w.fs (jobDir job.ID) (some .dir) :=
        osMkdir_ok env (jobDir job.ID) _ (hfault _ _) hpar hnone
      apply finishJob_complete env job (jobDir job.ID) _ hjs hfault himg hall
      · rw [hfs]; simp [setPath]
      · rw [hfs]
        simp only [setPath]
        rw [if_neg (jobFile_ne_dir _)]
        exact hjf
      · intro u hu
        rw [hfs]
        simp only [setPath]
        rw [if_neg (imageDest_ne_dir _ _)]
        exact hnd u hu
      · rw [hfs]
        simp only [setPath]
        rw [if_neg (sentinel_ne_dir _), hsent]
        simp

/-- C1: the job-ID check of processJob accepts an id exactly when it has 36
code points, `-` at the positions 8, 13, 18 and 23 and a digit or a letter a-f
everywhere else; the empty string, strings of a length other than 36, an id
with upper-case hexadecimal digits, an id without hyphens and a valid id
followed by a newline are rejected; and a call of processJob started with the
flag set leaves it set exactly when the id has that form. -/
theorem C1_jobID_check :
    (∀ id : Str, jobIDPattern.matchString id = true ↔ IsCanonicalUUID id) ∧
    jobIDPattern.matchString [] = false ∧
    (∀ id : Str, id.length ≠ 36 → jobIDPattern.matchString id = false) ∧
    jobIDPattern.matchString "ABCDEF11-1111-1111-1111-111111111111".toList = false ∧
    jobIDPattern.matchString "111111111111111111111111111111111111".toList = false ∧
    jobIDPattern.matchString "11111111111111111111111111111111".toList = false ∧
    jobIDPattern.matchString "11111111-1111-1111-1111-111111111111\n".toList = false ∧
    (∀ (env : Env) (job : Job) (w : World), w.activeJob = true →
      ((processJob env job w).2.activeJob = true ↔ IsCanonicalUUID job.ID)) := by
  refine ⟨jobID_match_iff, by decide, ?_, by decide, by decide, by decide, by decide, ?_⟩
  · intro id hlen
    cases h : jobIDPattern.matchString id with
    | false => rfl
    | true => exact absurd ((jobID_match_iff id).mp h).1 hlen
  · intro env job w hw
    rw [(processJob_flag_calls env job w).2, hw, ← jobID_match_iff]
    simp

/-- C2: the file name processJob derives from an image URL is what follows the
last `/` of the URL (the whole URL when it has none) and it is accepted exactly
when it is a non-empty run of digits and underscores, a dot and one of png, jpg,
jpeg, webp; the empty name left by a trailing `/`, a name with a query string
and the name derived from `../../etc/passwd` are rejected; at a rejected name
the loop ends the process with exit code 1 having only logged a line; at an
accepted name the loop logs the progress line and hands the URL and the
destination `<tdir>/<name>` to downloadImage, going on with the rest when that
succeeds and ending in a panic when it fails; so the next operation of the loop
is a download of the URL exactly when the name is accepted; in a call of
processJob that has written job.json the first entry is downloaded exactly when
its name is accepted; and every image download a call of processJob issues is
for an accepted name. -/
theorem C2_filename_check :
    (∀ u : Str, '/' ∉ lastSegment u ∧
      (('/' ∉ u ∧ lastSegment u = u) ∨ ∃ pre, u = pre ++ '/' :: lastSegment u)) ∧
    (∀ u : Str, fnamePattern.matchString (lastSegment u) = true ↔
      IsImageFilename (lastSegment u)) ∧
    (lastSegment "https://x/".toList = [] ∧ fnamePattern.matchString [] = false) ∧
    fnamePattern.matchString (lastSegment "https://x/1_2.png?size=2".toList) = false ∧
    (lastSegment "../../etc/passwd".toList = "passwd".toList ∧
      fnamePattern.matchString "passwd".toList = false) ∧
    (∀ (env : Env) (tdir u : Str) (rest : List Str) (w : World),
      ¬ IsImageFilename (lastSegment u) →
        (imageLoop env tdir (u :: rest) w).1 = .exited 1 ∧
        (imageLoop env tdir (u :: rest) w).2.trace = w.trace ∧
        (imageLoop env tdir (u :: rest) w).2.fs = w.fs) ∧
    (∀ (env : Env) (job : Job) (w : World) (url : Str) (body : Option Bytes),
      Event.getImage url body ∈ (processJob env job w).2.trace →
        Event.getImage url body ∈ w.trace ∨ IsImageFilename (lastSegment url)) ∧
    (∀ (env : Env) (tdir u : Str) (rest : List Str) (w : World),
      IsImageFilename (lastSegment u) →
        imageLoop env tdir (u :: rest) w =
          match downloadImage env u (imageDest tdir (lastSegment u))
              (logToWindow ("[200] ".toList ++ lastSegment u) w) with
          | (some err, w1) => (.panicked err, w1)
          | (none, w1) => imageLoop env tdir rest w1) ∧
    (∀ (env : Env) (tdir u : Str) (rest : List Str) (w : World),
      (∃ b T, (imageLoop env tdir (u :: rest) w).2.trace = w.trace ++ Event.getImage u b :: T) ↔
        IsImageFilename (lastSegment u)) ∧
    (∀ (env : Env) (job : Job) (w : World) (u : Str) (rest : List Str),
      jobIDPattern.matchString job.ID = true → job.ImagePaths = u :: rest →
        ∃ T, (processJob env job w).2.trace = w.trace ++ T ∧
          ((∃ js, Event.writeFile (jobFilePath (jobDir job.ID)) js true ∈ T) →
            ((∃ b, Event.getImage u b ∈ T) ↔ IsImageFilename (lastSegment u)))) := by
  have hrej : ∀ u : Str, ¬ IsImageFilename (lastSegment u) →
      fnamePattern.matchString (lastSegment u) = false := by
    intro u hu
    cases h : fnamePattern.matchString (lastSegment u) with
    | false => rfl
    | true => exact absurd ((fname_match_iff _).mp h) hu
  have hevent : ∀ (env : Env) (job : Job) (w : World) (T : List Event) (url : Str)
      (body : Option Bytes), (processJob env job w).2.trace = w.trace ++ T →
      Event.getImage url body ∈ T → IsImageFilename (lastSegment url) := by
    intro env job w T url body hT hin
    obtain ⟨T2, hT2, hmem⟩ := processJob_events env job w
    have hTT : T = T2 := List.append_cancel_left (hT.symm.trans hT2)
    rw [hTT] at hin
    rcases hmem _ hin with h | h | h | ⟨_, _, h⟩ | ⟨v, _, hv, ⟨b, h⟩ | ⟨_, _, h⟩⟩ | ⟨_, h⟩
    · exact absurd h (by simp)
    · exact absurd h (by simp)
    · exact absurd h (by simp)
    · exact absurd h (by simp)
    · injection h with h1 _
      rw [h1]
      exact (fname_match_iff _).mp hv
    · exact absurd h (by simp)
    · exact absurd h (by simp)
  refine ⟨lastSegment_spec, fun u => fname_match_iff _, ⟨by decide, by decide⟩, by decide,
    ⟨by decide, by decide⟩, ?_, ?_, ?_, ?_, ?_⟩
  · intro env tdir u rest w hu
    rw [imageLoop_invalid env tdir u rest w (hrej u hu)]
    exact ⟨rfl, rfl, rfl⟩
  · intro env job w url body hin
    obtain ⟨T, hT, _⟩ := processJob_events env job w
    rw [hT] at hin
    rcases List.mem_append.mp hin with hin | hin
    · exact Or.inl hin
    · exact Or.inr (hevent env job w T url body hT hin)
  · intro env tdir u rest w hu
    exact imageLoop_valid env tdir u rest w ((fname_match_iff _).mpr hu)
  · intro env tdir u rest w
    constructor
    · rintro ⟨b, T, hT⟩
      by_contra hu
      rw [imageLoop_invalid env tdir u rest w (hrej u hu)] at hT
      have := congrArg List.length hT
      simp at this
    · intro hu
      have hv := (fname_match_iff _).mpr hu
      rcases imageLoop_cons_cases env tdir u rest w with
        ⟨h0, _⟩ | ⟨_, e, h⟩ | ⟨_, e, d, h⟩ | ⟨_, d, h⟩
      · rw [hv] at h0
        exact absurd h0 (by simp)
      · rw [h]
        exact ⟨none, [], rfl⟩
      · rw [h]
        exact ⟨some d, [.writeFile (imageDest tdir (lastSegment u)) d false], by simp⟩
      · rw [h]
        obtain ⟨T, hT, _⟩ := imageLoop_trace env tdir rest
          (((logToWindow ("[200] ".toList ++ lastSegment u) w).emit
            (.getImage u (some d))).stored (imageDest tdir (lastSegment u)) d)
        exact ⟨some d, .writeFile (imageDest tdir (lastSegment u)) d true :: T,
          by rw [hT]; simp⟩
  · intro env job w u rest hid hpaths
    obtain ⟨T, hT, hrun⟩ := processJob_run env job w hid
    refine ⟨T, hT, ?_⟩
    rintro ⟨js, hjs⟩
    constructor
    · rintro ⟨b, hb⟩
      exact hevent env job w T u b hT hb
    · intro hu
      have hv := (fname_match_iff _).mpr hu
      rcases hrun with ⟨_, rfl⟩ | ⟨hdr, TF, hhdr, rfl, hfin⟩
      · simp at hjs
      · have hnohdr : ∀ p d ok, Event.writeFile p d ok ∉ hdr := by
          intro p d ok
          rcases hhdr with rfl | rfl <;> simp
        rcases List.mem_append.mp hjs with hjs | hjs
        · exact absurd hjs (hnohdr _ _ _)
        rcases hfin with ⟨e, _, rfl⟩ | ⟨js2, e, _, rfl⟩ |
          ⟨js2, oi, TI, E, ⟨k, payloads, tail, hlen, hk, hall, hTI, hend⟩, rfl, _⟩
        · simp at hjs
        · simp at hjs
        · have hin : ∃ b, Event.getImage u b ∈ TI := by
            rw [hpaths] at hTI hend
            cases k with
            | zero =>
              rcases hend with ⟨h1, _⟩ | ⟨v, h1, h2, _⟩ | ⟨v, e, h1, _, _, h4⟩ |
                ⟨v, e, d, h1, _, _, h4⟩
              · simp at h1
              · simp only [List.getElem?_cons_zero, Option.some.injEq] at h1
                rw [← h1, hv] at h2
                exact absurd h2 (by simp)
              · simp only [List.getElem?_cons_zero, Option.some.injEq] at h1
                subst h1
                exact ⟨none, by rw [hTI, h4]; simp⟩
              · simp only [List.getElem?_cons_zero, Option.some.injEq] at h1
                subst h1
                exact ⟨some d, by rw [hTI, h4]; simp⟩
            | succ k =>
              cases payloads with
              | nil => simp at hlen
              | cons d ps =>
                exact ⟨some d, by rw [hTI]; simp [downloadEvents]⟩
          obtain ⟨b, hb⟩ := hin
          refine ⟨b, ?_⟩
          simp only [List.mem_append, List.mem_cons]
          exact Or.inr (Or.inr (Or.inl hb))

/-- C3: on a job with a valid id whose directory exists and holds the
`completed` sentinel, processJob returns after two look-ups: it issues no
download and no write, leaves the store and the run-state flag as they were and
logs the one line `Skipping ... -- already downloaded.`; and whenever a first
call on a job has returned, a second call in the world it left returns too,
leaves that store as it is and issues only the two look-ups, so no network
call. -/
theorem C3_idempotence (env : Env) (job : Job) (w : World)
    (hid : jobIDPattern.matchString job.ID = true)
    (hdir : w.fs (jobDir job.ID) = some .dir)
    (hsent : w.fs (sentinelPath (jobDir job.ID)) ≠ none) :
    ((processJob env job w).1 = .returned ∧
      (processJob env job w).2.fs = w.fs ∧
      (processJob env job w).2.activeJob = w.activeJob ∧
      (processJob env job w).2.trace =
        w.trace ++ [.stat (jobDir job.ID), .stat (sentinelPath (jobDir job.ID))] ∧
      (processJob env job w).2.log =
        w.log ++ ["Skipping ".toList ++ job.ID ++ " -- already downloaded.".toList]) ∧
    ∀ (env0 : Env) (w0 : World), (processJob env0 job w0).1 = .returned →
      (processJob env job (processJob env0 job w0).2).1 = .returned ∧
      (processJob env job (processJob env0 job w0).2).2.fs = (processJob env0 job w0).2.fs ∧
      (processJob env job (processJob env0 job w0).2).2.activeJob =
        (processJob env0 job w0).2.activeJob ∧
      (processJob env job (processJob env0 job w0).2).2.trace =
        (processJob env0 job w0).2.trace ++
          [.stat (jobDir job.ID), .stat (sentinelPath (jobDir job.ID))] := by
  constructor
  · rw [processJob_skip env job w hid hdir hsent]
    exact ⟨rfl, rfl, rfl, by simp, rfl⟩
  · intro env0 w0 hr
    obtain ⟨hd, hs⟩ := processJob_returned_done env0 job w0 hid hr
    rw [processJob_skip env job _ hid hd hs]
    exact ⟨rfl, rfl, rfl, by simp⟩

/-- C3, at a store in which the sample job is complete. -/
theorem C3_idempotence_witness :
    (processJob calmEnv sampleJob doneWorld).1 = .returned ∧
      (processJob calmEnv sampleJob doneWorld).2.fs = doneWorld.fs ∧
      (processJob calmEnv sampleJob doneWorld).2.activeJob = doneWorld.activeJob ∧
      (processJob calmEnv sampleJob doneWorld).2.trace =
        doneWorld.trace ++
          [.stat (jobDir sampleJob.ID), .stat (sentinelPath (jobDir sampleJob.ID))] ∧
      (processJob calmEnv sampleJob doneWorld).2.log =
        doneWorld.log ++
          ["Skipping ".toList ++ sampleJob.ID ++ " -- already downloaded.".toList] :=
  (C3_idempotence calmEnv sampleJob doneWorld (by decide) (by decide) (by decide)).1

/-- C4 (amended): for a job with a valid id whose sentinel is absent (the
directory is absent, or present with any stale files), the downloads processJob
issues are an initial segment of job.ImagePaths in listing order; the sentinel
exists afterwards exactly when the call returns, which is exactly when job.json
was written, every file name passed the check, every image was fetched and
stored and the sentinel itself was written; a call that returns has issued,
after its look-ups, exactly the write of job.json, then for every entry in
listing order one download and one write to its destination, then the write of
the sentinel; whatever the outcome, the operations of the call are the
look-ups, the write of job.json, then one download and one write per entry in
listing order up to the first step that fails (a name that fails the check ends
the process with code 1, a failed download or write ends it in a panic, and
nothing follows the failing step), and the write of the sentinel only when
every entry went through; when nothing fails (the job can be serialised, no
disk operation or download fails, every name passes the check, stale files may
be present) the call returns and the sentinel exists; and one step of the loop
at a name that passes the check panics with the error of the download when the
download fails, panics when the write fails, and goes on with the remaining
entries only when both succeed. -/
theorem C4_sentinel_and_resume (env : Env) (job : Job) (w : World)
    (hid : jobIDPattern.matchString job.ID = true)
    (hsent : w.fs (sentinelPath (jobDir job.ID)) = none) :
    ∃ T, (processJob env job w).2.trace = w.trace ++ T ∧
      (∃ rest, job.ImagePaths = imageURLs T ++ rest) ∧
      ((processJob env job w).2.fs (sentinelPath (jobDir job.ID)) ≠ none ↔
        (processJob env job w).1 = .returned) ∧
      ((processJob env job w).1 = .returned ↔ Succeeded (jobDir job.ID) job T) ∧
      ((processJob env job w).1 = .returned →
        ∃ (hdr : List Event) (js : Bytes) (payloads : List Bytes),
          IsHeader (jobDir job.ID) hdr ∧ payloads.length = job.ImagePaths.length ∧
          T = hdr ++ .writeFile (jobFilePath (jobDir job.ID)) js true ::
            ((job.ImagePaths.zip payloads).flatMap fun x =>
              downloadEvents (jobDir job.ID) x.1 x.2) ++
              [.writeFile (sentinelPath (jobDir job.ID)) [] true]) ∧
      JobRun (jobDir job.ID) job (processJob env job w).1 T ∧
      (NothingFails env job w →
        (processJob env job w).1 = .returned ∧
        (processJob env job w).2.fs (sentinelPath (jobDir job.ID)) ≠ none) ∧
      (∀ (tdir u : Str) (rest : List Str) (w0 : World),
        fnamePattern.matchString (lastSegment u) = true →
        (∀ e, env.image w0.tick u = .error e →
          imageLoop env tdir (u :: rest) w0 =
            (.panicked e,
              (logToWindow ("[200] ".toList ++ lastSegment u) w0).emit (.getImage u none))) ∧
        (∀ d, env.image w0.tick u = .ok d →
          imageLoop env tdir (u :: rest) w0 =
            match osWriteFile env (imageDest tdir (lastSegment u)) d
                ((logToWindow ("[200] ".toList ++ lastSegment u) w0).emit
                  (.getImage u (some d))) with
            | (some err, w1) => (.panicked err, w1)
            | (none, w1) => imageLoop env tdir rest w1)) := by
  have base : ∃ T, (processJob env job w).2.trace = w.trace ++ T ∧
      (∃ rest, job.ImagePaths = imageURLs T ++ rest) ∧
      ((processJob env job w).2.fs (sentinelPath (jobDir job.ID)) ≠ none ↔
        (processJob env job w).1 = .returned) ∧
      ((processJob env job w).1 = .returned ↔ Succeeded (jobDir job.ID) job T) ∧
      ((processJob env job w).1 = .returned →
        ∃ (hdr : List Event) (js : Bytes) (payloads : List Bytes),
          IsHeader (jobDir job.ID) hdr ∧ payloads.length = job.ImagePaths.length ∧
          T = hdr ++ .writeFile (jobFilePath (jobDir job.ID)) js true ::
            ((job.ImagePaths.zip payloads).flatMap fun x =>
              downloadEvents (jobDir job.ID) x.1 x.2) ++
              [.writeFile (sentinelPath (jobDir job.ID)) [] true]) := by
    rcases processJob_cases env job w hid with ⟨_, h2, _⟩ | ⟨_, _, h⟩ | ⟨_, h⟩
    · exact absurd hsent h2
    · rw [h]
      exact finishJob_from env job (jobDir job.ID) w _ _ (by simp) (Or.inl rfl) hsent
    · rw [h]
      refine finishJob_from env job (jobDir job.ID) w _ _ ?_ (Or.inr rfl) ?_
      · rw [osMkdir_trace]; simp
      · rw [osMkdir_fs _ _ _ _ (sentinel_ne_dir _)]
        exact hsent
  obtain ⟨T, hT, h1, h2, h3, h4⟩ := base
  obtain ⟨T2, hT2, hrun⟩ := processJob_run env job w hid
  have hTT : T2 = T := List.append_cancel_left (hT2.symm.trans hT)
  refine ⟨T, hT, h1, h2, h3, h4, ?_, ?_, ?_⟩
  · rcases hrun with ⟨h, _⟩ | hrun
    · exact absurd hsent h
    · rw [← hTT]
      exact hrun
  · intro hok
    have hret := processJob_complete env job w hid hsent hok
    exact ⟨hret, h2.mpr hret⟩
  · intro tdir u rest w0 hv
    refine ⟨?_, ?_⟩
    · intro e he
      rw [imageLoop_valid env tdir u rest w0 hv]
      have hd : downloadImage env u (imageDest tdir (lastSegment u))
          (logToWindow ("[200] ".toList ++ lastSegment u) w0) =
          (some e, (logToWindow ("[200] ".toList ++ lastSegment u) w0).emit
            (.getImage u none)) := by
        unfold downloadImage
        rw [show (logToWindow ("[200] ".toList ++ lastSegment u) w0).tick = w0.tick from rfl, he]
      rw [hd]
    · intro d hd
      rw [imageLoop_valid env tdir u rest w0 hv]
      have hdl : downloadImage env u (imageDest tdir (lastSegment u))
          (logToWindow ("[200] ".toList ++ lastSegment u) w0) =
          osWriteFile env (imageDest tdir (lastSegment u)) d
            ((logToWindow ("[200] ".toList ++ lastSegment u) w0).emit
              (.getImage u (some d))) := by
        unfold downloadImage
        rw [show (logToWindow ("[200] ".toList ++ lastSegment u) w0).tick = w0.tick from rfl, hd]
      rw [hdl]

/-- C4, at the sample job in a store that holds only the directory `jobs`, with
surroundings in which nothing fails: the call returns, the sentinel exists, and
the one image of the job was fetched. -/
theorem C4_sentinel_and_resume_witness :
    jobIDPattern.matchString sampleJob.ID = true ∧
    freshWorld.fs (sentinelPath (jobDir sampleJob.ID)) = none ∧
    NothingFails calmEnv sampleJob freshWorld ∧
    (processJob calmEnv sampleJob freshWorld).1 = .returned ∧
    (processJob calmEnv sampleJob freshWorld).2.fs (sentinelPath (jobDir sampleJob.ID)) ≠ none ∧
    imageURLs (processJob calmEnv sampleJob freshWorld).2.trace = sampleJob.ImagePaths ∧
    JobRun (jobDir sampleJob.ID) sampleJob .returned
      (processJob calmEnv sampleJob freshWorld).2.trace := by
  have hok : NothingFails calmEnv sampleJob freshWorld := by
    refine ⟨⟨[123, 125], rfl⟩, fun _ _ => rfl, fun _ _ _ => ⟨[1, 2, 3], rfl⟩, ?_,
      Or.inr ⟨by decide, by decide⟩, by decide, ?_⟩
    · intro u hu
      simp only [sampleJob, List.mem_singleton] at hu
      subst hu
      decide
    · intro u hu
      simp only [sampleJob, List.mem_singleton] at hu
      subst hu
      decide
  obtain ⟨T, hT, _, _, _, _, hrun, hall, _⟩ :=
    C4_sentinel_and_resume calmEnv sampleJob freshWorld (by decide) (by decide)
  have hTT : (processJob calmEnv sampleJob freshWorld).2.trace = T := by
    rw [hT]
    rfl
  refine ⟨by decide, by decide, hok, (hall hok).1, (hall hok).2, by decide, ?_⟩
  rw [hTT, ← (hall hok).1]
  exact hrun

/-- C4 as stated fails: when creating the sentinel fails, job.json was written,
the file name passed the check and the download succeeded, yet no sentinel
exists; and a job whose first file name fails the check has two entries of
which none is fetched. -/
theorem C4_counterexample :
    ¬ ((processJob sentinelFaultEnv sampleJob freshWorld).2.fs
          (sentinelPath (jobDir sampleJob.ID)) ≠ none ↔
        SucceededBeforeSentinel (jobDir sampleJob.ID) sampleJob
          (processJob sentinelFaultEnv sampleJob freshWorld).2.trace) ∧
    (processJob sentinelFaultEnv sampleJob freshWorld).1 =
      .panicked "disk quota exceeded".toList ∧
    badNameJob.ImagePaths.length = 2 ∧
    imageURLs (processJob calmEnv badNameJob freshWorld).2.trace = [] := by
  refine ⟨?_, by decide, by decide, by decide⟩
  intro h
  have hnone : (processJob sentinelFaultEnv sampleJob freshWorld).2.fs
      (sentinelPath (jobDir sampleJob.ID)) = none := by decide
  refine h.mpr ⟨⟨[123, 125], by decide⟩, ?_, ?_⟩ hnone
  · intro u hu
    simp only [sampleJob, List.mem_singleton] at hu
    subst hu
    decide
  · intro u hu
    simp only [sampleJob, List.mem_singleton] at hu
    subst hu
    exact ⟨[1, 2, 3], by decide, by decide⟩

/-- C10: when the job id and the file name derived from an image URL both pass
their checks, the destination handed to downloadImage is `jobs/<id>/<filename>`;
it has exactly two `/`, no backslash and no `..` segment, its segments are
`jobs`, the id and the file name, its directory is the directory of the job, and
it differs from the paths of `job.json` and of the sentinel; so the image loop
leaves `job.json` and the sentinel of the job as they are, and every entry of
the store it changes is the destination of an accepted name in the directory of
the job. -/
theorem C10_path_confinement (id u : Str)
    (hid : jobIDPattern.matchString id = true)
    (hf : fnamePattern.matchString (lastSegment u) = true) :
    imageDest (jobDir id) (lastSegment u) =
      ['j', 'o', 'b', 's', '/'] ++ id ++ '/' :: lastSegment u ∧
    (imageDest (jobDir id) (lastSegment u)).count '/' = 2 ∧
    '\\' ∉ imageDest (jobDir id) (lastSegment u) ∧
    splitSep '/' (imageDest (jobDir id) (lastSegment u)) = [jobsDir, id, lastSegment u] ∧
    ['.', '.'] ∉ splitSep '/' (imageDest (jobDir id) (lastSegment u)) ∧
    lastSegment (imageDest (jobDir id) (lastSegment u)) = lastSegment u ∧
    lastSegment u ≠ ['j', 'o', 'b', '.', 'j', 's', 'o', 'n'] ∧
    lastSegment u ≠ ['c', 'o', 'm', 'p', 'l', 'e', 't', 'e', 'd'] ∧
    parentDir (imageDest (jobDir id) (lastSegment u)) = some (jobDir id) ∧
    imageDest (jobDir id) (lastSegment u) ≠ jobFilePath (jobDir id) ∧
    imageDest (jobDir id) (lastSegment u) ≠ sentinelPath (jobDir id) ∧
    ∀ (env : Env) (urls : List Str) (w : World),
      (imageLoop env (jobDir id) urls w).2.fs (jobFilePath (jobDir id)) =
        w.fs (jobFilePath (jobDir id)) ∧
      (imageLoop env (jobDir id) urls w).2.fs (sentinelPath (jobDir id)) =
        w.fs (sentinelPath (jobDir id)) ∧
      ∀ p, (imageLoop env (jobDir id) urls w).2.fs p ≠ w.fs p →
        ∃ v ∈ urls, fnamePattern.matchString (lastSegment v) = true ∧
          p = imageDest (jobDir id) (lastSegment v) ∧
          parentDir p = some (jobDir id) := by
  obtain ⟨hid1, hid2⟩ := uuid_no_slash id hid
  have hname : ∀ f : Str, fnamePattern.matchString f = true → '/' ∉ f ∧ '\\' ∉ f :=
    fname_no_slash
  obtain ⟨hf1, hf2⟩ := hname _ hf
  have hsplit : splitSep '/' (imageDest (jobDir id) (lastSegment u)) =
      [jobsDir, id, lastSegment u] := by
    have h1 : imageDest (jobDir id) (lastSegment u) =
        jobsDir ++ '/' :: (id ++ '/' :: lastSegment u) := by
      simp [imageDest, jobDir]
    rw [h1, splitSep_append _ _ _ (by decide), splitSep_append _ _ _ hid1,
      splitSep_none _ _ hf1]
  have hlen : id.length = 36 := ((jobID_match_iff id).mp hid).1
  refine ⟨by simp [imageDest, jobDir, jobsDir], ?_, ?_, hsplit, ?_, ?_, ?_, ?_,
    parentDir_append _ _ hf1, (jobFile_ne_imageDest _ _ hf).symm,
    (sentinel_ne_imageDest _ _ hf).symm, ?_⟩
  · simp only [imageDest, jobDir, jobsDir, List.count_append, List.count_cons,
      List.count_eq_zero.mpr hid1, List.count_eq_zero.mpr hf1]
    simp
  · simp only [imageDest, jobDir, jobsDir, List.mem_append, List.mem_cons, not_or]
    refine ⟨⟨by decide, by decide, hid2⟩, by decide, hf2⟩
  · rw [hsplit]
    simp only [List.mem_cons, List.not_mem_nil, or_false, not_or]
    refine ⟨by decide, ?_, ?_⟩
    · intro h
      rw [← h] at hlen
      simp at hlen
    · intro h
      rw [← h] at hf
      revert hf
      decide
  · rw [show lastSegment (imageDest (jobDir id) (lastSegment u)) =
      (splitSep '/' (imageDest (jobDir id) (lastSegment u))).getLastD [] from rfl, hsplit]
    rfl
  · intro h
    rw [h, jobJson_not_image] at hf
    exact absurd hf (by simp)
  · intro h
    rw [h, completed_not_image] at hf
    exact absurd hf (by simp)
  · intro env urls w
    obtain ⟨_, _, hfs⟩ := imageLoop_frame env (jobDir id) urls w
    refine ⟨hfs _ (fun v _ hv => jobFile_ne_imageDest _ _ hv),
      hfs _ (fun v _ hv => sentinel_ne_imageDest _ _ hv), ?_⟩
    intro p hp
    by_contra hcon
    apply hp
    apply hfs
    intro v hv hvalid hpeq
    exact hcon ⟨v, hv, hvalid, hpeq, by rw [hpeq]; exact parentDir_append _ _ (hname _ hvalid).1⟩

/-- C10, at the sample job and its image URL. -/
theorem C10_path_confinement_witness :
    imageDest (jobDir sampleID) (lastSegment "https://x/1_2.png".toList) =
      ['j', 'o', 'b', 's', '/'] ++ sampleID ++ '/' :: lastSegment "https://x/1_2.png".toList ∧
    (imageDest (jobDir sampleID) (lastSegment "https://x/1_2.png".toList)).count '/' = 2 :=
  let h := C10_path_confinement sampleID "https://x/1_2.png".toList (by decide) (by decide)
  ⟨h.1, h.2.1⟩

theorem jobLoop_inactive (env : Env) (js : List Job) (w : World) (h : w.activeJob = false) :
    jobLoop env js w = (.returned, w) := by
  induction js with
  | nil => rfl
  | cons j rest ih => simp [jobLoop, h, ih]

theorem jobLoop_append (env : Env) (a b : List Job) (w : World)
    (h : (jobLoop env a w).1 = .returned) :
    jobLoop env (a ++ b) w = jobLoop env b (jobLoop env a w).2 := by
  induction a generalizing w with
  | nil => rfl
  | cons j rest ih =>
    simp only [List.cons_append, jobLoop] at h ⊢
    by_cases hw : w.activeJob = true
    · simp only [hw, if_true] at h ⊢
      rcases hp : processJob env j w with ⟨o, w1⟩
      rw [hp] at h
      cases o with
      | returned => exact ih w1 h
      | exited c => simp at h
      | panicked e => simp at h
    · simp only [hw] at h ⊢
      exact ih w h

theorem startsWith_jobDir (id rest : Str) (hid : jobIDPattern.matchString id = true) :
    startsWith ['j', 'o', 'b', 's', '/', 'l', 'a', 's', 't', '_', 'p', 'a', 'g', 'e', '_']
      (jobDir id ++ rest) = false := by
  have hshape := (jobID_match_iff id).mp hid
  cases id with
  | nil => simp [IsCanonicalUUID] at hshape
  | cons c cs =>
    have hc := uuid_chars _ hshape c (List.mem_cons_self _ _)
    have hne : ¬ 'l' = c := by
      rintro rfl
      rcases hc with h | h
      · exact absurd h (by decide)
      · unfold isLowerHex at h
        revert h
        decide
    simp [jobDir, jobsDir, startsWith, hne]

theorem jobEvent_not_page (id : Str) (job : Job) (e : Event)
    (hid : jobIDPattern.matchString id = true) (h : IsJobEvent (jobDir id) job e) :
    isPageEvent e = false := by
  rcases h with rfl | rfl | rfl | ⟨_, _, rfl⟩ | ⟨v, _, _, ⟨_, rfl⟩ | ⟨_, _, rfl⟩⟩ | ⟨_, rfl⟩
  · rfl
  · rfl
  · rfl
  · exact startsWith_jobDir id _ hid
  · rfl
  · exact startsWith_jobDir id _ hid
  · exact startsWith_jobDir id _ hid

/-- The loop over the jobs of a page issues no operation of the page loop; and
when it leaves the flag set, the flag was set before, and a loop that returns
has then called `processJob` on every job in listing order. -/
theorem jobLoop_spec (env : Env) (js : List Job) (w : World) :
    ∃ J, (jobLoop env js w).2.trace = w.trace ++ J ∧
      (∀ e ∈ J, isPageEvent e = false) ∧
      ((jobLoop env js w).2.activeJob = true →
        w.activeJob = true ∧
        ((jobLoop env js w).1 = .returned → (jobLoop env js w).2.calls = w.calls ++ js)) := by
  induction js generalizing w with
  | nil => exact ⟨[], by simp [jobLoop], by simp, fun h => ⟨h, fun _ => by simp [jobLoop]⟩⟩
  | cons j rest ih =>
    by_cases hw : w.activeJob = true
    · obtain ⟨T1, hT1, hmem⟩ := processJob_events env j w
      obtain ⟨hcalls, hflag⟩ := processJob_flag_calls env j w
      have hpage : ∀ e ∈ T1, isPageEvent e = false := by
        intro e he
        cases hid : jobIDPattern.matchString j.ID with
        | true => exact jobEvent_not_page j.ID j e hid (hmem e he)
        | false =>
          rw [processJob_invalid env j w hid] at hT1
          have : T1 = [] := by simpa using hT1
          rw [this] at he
          simp at he
      simp only [jobLoop, hw, if_true]
      rcases hp : processJob env j w with ⟨o, w1⟩
      rw [hp] at hT1 hcalls hflag
      simp only at hT1 hcalls hflag
      cases o with
      | returned =>
        obtain ⟨J, hJ, hJmem, hJflag⟩ := ih w1
        refine ⟨T1 ++ J, by rw [hJ, hT1, List.append_assoc], ?_, ?_⟩
        · intro e he
          rcases List.mem_append.mp he with he | he
          · exact hpage e he
          · exact hJmem e he
        · intro hfin
          obtain ⟨_, hc⟩ := hJflag hfin
          refine ⟨trivial, fun hr => ?_⟩
          rw [hc hr, hcalls]
          simp
      | exited c => exact ⟨T1, hT1, hpage, fun _ => ⟨trivial, fun hr => by simp at hr⟩⟩
      | panicked e => exact ⟨T1, hT1, hpage, fun _ => ⟨trivial, fun hr => by simp at hr⟩⟩
    · have hw2 : w.activeJob = false := by simpa using hw
      rw [jobLoop_inactive env _ w hw2]
      exact ⟨[], by simp, by simp, fun h => absurd h hw⟩

/-- C5 (amended): when the jobs that precede a job with an invalid id on a
listing page are processed without terminating the process, processing the page
returns with the run-state flag cleared; from the moment the invalid job is
reached the store is not changed and no operation is issued, processJob is
invoked on no job that follows it in listing order, and what is logged is at
most the one line about the invalid id. -/
theorem C5_run_isolation (env : Env) (pre post : List Job) (bad : Job) (w : World)
    (hbad : jobIDPattern.matchString bad.ID = false)
    (hpre : (jobLoop env pre w).1 = .returned) :
    (jobLoop env (pre ++ bad :: post) w).1 = .returned ∧
    (jobLoop env (pre ++ bad :: post) w).2.activeJob = false ∧
    (jobLoop env (pre ++ bad :: post) w).2.fs = (jobLoop env pre w).2.fs ∧
    (jobLoop env (pre ++ bad :: post) w).2.trace = (jobLoop env pre w).2.trace ∧
    (jobLoop env (pre ++ bad :: post) w).2.calls =
      (jobLoop env pre w).2.calls ++ (if (jobLoop env pre w).2.activeJob then [bad] else []) ∧
    (jobLoop env (pre ++ bad :: post) w).2.log =
      (jobLoop env pre w).2.log ++
        (if (jobLoop env pre w).2.activeJob then
          ["Potentially unsafe job ID ".toList ++ bad.ID ++ " -- stopping!".toList]
        else []) := by
  rw [jobLoop_append env pre (bad :: post) w hpre]
  cases hw : (jobLoop env pre w).2.activeJob with
  | false =>
    rw [jobLoop_inactive env _ _ hw]
    simp [hw]
  | true =>
    simp only [jobLoop, hw, if_true]
    rw [processJob_invalid env bad _ hbad]
    simp only
    rw [jobLoop_inactive env post _ rfl]
    simp [logToWindow]

/-- C5, at a page that holds the job with an invalid id followed by the sample
job. -/
theorem C5_run_isolation_witness :
    (jobLoop calmEnv ([] ++ badIDJob :: [sampleJob]) freshWorld).1 = .returned ∧
    (jobLoop calmEnv ([] ++ badIDJob :: [sampleJob]) freshWorld).2.activeJob = false ∧
    (jobLoop calmEnv ([] ++ badIDJob :: [sampleJob]) freshWorld).2.fs =
      (jobLoop calmEnv [] freshWorld).2.fs :=
  let h := C5_run_isolation calmEnv [] [sampleJob] badIDJob freshWorld (by decide) (by decide)
  ⟨h.1, h.2.1, h.2.2.1⟩

/-- C5 as stated fails: on a page whose first job has a valid id and an image
name that fails the check, followed by a job with an invalid id and a job with
a valid id, the process exits at the first job and the flag is still set. -/
theorem C5_counterexample :
    jobIDPattern.matchString badIDJob.ID = false ∧
    jobIDPattern.matchString sampleJob.ID = true ∧
    (jobLoop calmEnv [badNameJob, badIDJob, sampleJob] freshWorld).1 = .exited 1 ∧
    (jobLoop calmEnv [badNameJob, badIDJob, sampleJob] freshWorld).2.activeJob = true ∧
    (jobLoop calmEnv [badNameJob, badIDJob, sampleJob] freshWorld).2.calls = [badNameJob] := by
  decide

theorem pageStep_inactive (env : Env) (ub tb : Bytes) (page : Nat) (w : World)
    (h : w.activeJob = false) :
    pageStep env ub tb page w =
      match osWriteFile env (lastPageFile page) [] w with
      | (some err, w2) => (some .returned, logToWindow ("[804] ".toList ++ err) w2)
      | (none, w2) =>
        (some .returned, logToWindow ("[805] unexpected end of JSON input".toList) w2) := by
  simp [pageStep, fetchJobs, h, jsonUnmarshal]

/-- C7, what the code does: once the flag is cleared, the remaining jobs of the
page are skipped, and the next iteration of the page loop issues no request but
still writes an empty page artifact for its page number and then appends a line
to the log, `[805] unexpected end of JSON input` when that write succeeds and a
line with code 804 when it fails, before the run returns. -/
theorem C7_after_kill_switch (env : Env) (ub tb : Bytes) (n page : Nat) (w : World)
    (h : w.activeJob = false) :
    (∀ js, jobLoop env js w = (.returned, w)) ∧
    (pageLoop env ub tb (n + 1) page w).1 = some .returned ∧
    ∃ ok, (pageLoop env ub tb (n + 1) page w).2.trace =
        w.trace ++ [.writeFile (lastPageFile page) [] ok] ∧
      (ok = true →
        (pageLoop env ub tb (n + 1) page w).2.fs (lastPageFile page) = some (.file []) ∧
        (pageLoop env ub tb (n + 1) page w).2.log =
          w.log ++ ["[805] unexpected end of JSON input".toList]) ∧
      (ok = false →
        (pageLoop env ub tb (n + 1) page w).2.fs = w.fs ∧
        ∃ err, (pageLoop env ub tb (n + 1) page w).2.log = w.log ++ ["[804] ".toList ++ err]) := by
  refine ⟨fun js => jobLoop_inactive env js w h, ?_⟩
  simp only [pageLoop, pageStep_inactive env ub tb page w h]
  rcases osWriteFile_spec env (lastPageFile page) [] w with ⟨_, hw⟩ | ⟨e, hw⟩
  · rw [hw]
    exact ⟨rfl, true, rfl, fun _ => ⟨by simp [setPath], rfl⟩, fun hf => by simp at hf⟩
  · rw [hw]
    exact ⟨rfl, false, rfl, fun hf => by simp at hf, fun _ => ⟨rfl, e, rfl⟩⟩

/-- C7, at a run whose first page holds a job with an invalid id followed by a
job with a valid id: the run overwrites the dump of page 2 with an empty file
and logs a decode error after the line about the invalid id. -/
theorem C7_after_kill_switch_witness :
    (pageLoop calmEnv [] [] 199 2 (processJob calmEnv badIDJob freshWorld).2).1 =
      some .returned ∧
    (recentJobs killEnv readyWorld).1 = .returned ∧
    (recentJobs killEnv readyWorld).2.activeJob = false ∧
    (recentJobs killEnv readyWorld).2.calls = [badIDJob] ∧
    readyWorld.fs (lastPageFile 2) = some (.file [91, 93]) ∧
    (recentJobs killEnv readyWorld).2.fs (lastPageFile 2) = some (.file []) ∧
    Event.writeFile (lastPageFile 2) [] true ∈ (recentJobs killEnv readyWorld).2.trace ∧
    (recentJobs killEnv readyWorld).2.log =
      ["Potentially unsafe job ID ../../etc -- stopping!".toList,
       "[805] unexpected end of JSON input".toList] :=
  ⟨(C7_after_kill_switch calmEnv [] [] 198 2 (processJob calmEnv badIDJob freshWorld).2
      (by decide)).2.1,
    by decide, by decide, by decide, by decide, by decide, by decide, by decide⟩

theorem osWriteFile_log (env : Env) (path : Str) (data : Bytes) (w : World) :
    (osWriteFile env path data w).2.log = w.log := by
  rcases osWriteFile_spec env path data w with ⟨_, h⟩ | ⟨e, h⟩ <;> rw [h] <;> rfl

theorem osWriteFile_activeJob (env : Env) (path : Str) (data : Bytes) (w : World) :
    (osWriteFile env path data w).2.activeJob = w.activeJob := by
  rcases osWriteFile_spec env path data w with ⟨_, h⟩ | ⟨e, h⟩ <;> rw [h] <;> rfl

theorem osWriteFile_calls (env : Env) (path : Str) (data : Bytes) (w : World) :
    (osWriteFile env path data w).2.calls = w.calls := by
  rcases osWriteFile_spec env path data w with ⟨_, h⟩ | ⟨e, h⟩ <;> rw [h] <;> rfl

theorem downloadImage_log (env : Env) (u dest : Str) (w : World) :
    (downloadImage env u dest w).2.log = w.log := by
  rcases downloadImage_spec env u dest w with ⟨e, h⟩ | ⟨d, h⟩
  · rw [h]; rfl
  · rw [h, osWriteFile_log]; rfl

/-- C9 (amended): a failed catalog fetch, a failed write of the page artifact
and a failed decode each end the run after a log line that begins with the code
803, 804 or 805 and carries the error text; a job id that fails the check ends
the call, and a file name that fails the check ends the process with exit code
1, after a log line that names the offending value and carries no code; a
failure to serialise or write job.json, a failed image download and a failed
write of the sentinel end the process by panic with no log line appended for
the failure (the last line before a failed download is the progress line of
that image). -/
theorem C9_error_logging (env : Env) (w : World) :
    (∀ (ub tb : Bytes) (page : Nat) (err : Str) (w1 : World),
      fetchJobs env (trimSpace (env.text ub)) (trimSpace (env.text tb)) page w = (.error err, w1) →
        pageStep env ub tb page w = (some .returned, logToWindow ("[803] ".toList ++ err) w1) ∧
        hasCode ("[803] ".toList ++ err) = true) ∧
    (∀ (ub tb : Bytes) (page : Nat) (body : Bytes) (w1 : World) (err : Str) (w2 : World),
      fetchJobs env (trimSpace (env.text ub)) (trimSpace (env.text tb)) page w = (.ok body, w1) →
      osWriteFile env (lastPageFile page) body w1 = (some err, w2) →
        pageStep env ub tb page w = (some .returned, logToWindow ("[804] ".toList ++ err) w2) ∧
        hasCode ("[804] ".toList ++ err) = true) ∧
    (∀ (ub tb : Bytes) (page : Nat) (body : Bytes) (w1 w2 : World) (err : Str),
      fetchJobs env (trimSpace (env.text ub)) (trimSpace (env.text tb)) page w = (.ok body, w1) →
      osWriteFile env (lastPageFile page) body w1 = (none, w2) →
      jsonUnmarshal env body = .error err →
        pageStep env ub tb page w = (some .returned, logToWindow ("[805] ".toList ++ err) w2) ∧
        hasCode ("[805] ".toList ++ err) = true) ∧
    (∀ job : Job, jobIDPattern.matchString job.ID = false →
      (processJob env job w).1 = .returned ∧
      (processJob env job w).2.activeJob = false ∧
      (processJob env job w).2.log =
        w.log ++ ["Potentially unsafe job ID ".toList ++ job.ID ++ " -- stopping!".toList] ∧
      hasCode ("Potentially unsafe job ID ".toList ++ job.ID ++ " -- stopping!".toList) = false) ∧
    (∀ (tdir u : Str) (rest : List Str), fnamePattern.matchString (lastSegment u) = false →
      (imageLoop env tdir (u :: rest) w).1 = .exited 1 ∧
      (imageLoop env tdir (u :: rest) w).2.log =
        w.log ++ ["Chemin d'image potentiellement dangereux ".toList ++ u ++
          " se terminant par ".toList ++ lastSegment u ++ " -- arrêt!".toList] ∧
      hasCode ("Chemin d'image potentiellement dangereux ".toList ++ u ++
          " se terminant par ".toList ++ lastSegment u ++ " -- arrêt!".toList) = false) ∧
    (∀ (job : Job) (tdir err : Str), env.jsonMarshal job = .error err →
      finishJob env job tdir w = (.panicked err, w)) ∧
    (∀ (job : Job) (tdir : Str) (js : Bytes) (err : Str) (w1 : World),
      env.jsonMarshal job = .ok js →
      osWriteFile env (jobFilePath tdir) js w = (some err, w1) →
        finishJob env job tdir w = (.panicked err, w1) ∧ w1.log = w.log) ∧
    (∀ (tdir u : Str) (rest : List Str) (err : Str) (w1 : World),
      fnamePattern.matchString (lastSegment u) = true →
      downloadImage env u (imageDest tdir (lastSegment u))
          (logToWindow ("[200] ".toList ++ lastSegment u) w) = (some err, w1) →
        imageLoop env tdir (u :: rest) w = (.panicked err, w1) ∧
        w1.log = w.log ++ ["[200] ".toList ++ lastSegment u]) ∧
    (∀ (job : Job) (tdir : Str) (js : Bytes) (w1 w2 : World) (err : Str) (w3 : World),
      env.jsonMarshal job = .ok js →
      osWriteFile env (jobFilePath tdir) js w = (none, w1) →
      imageLoop env tdir job.ImagePaths w1 = (.returned, w2) →
      osWriteFile env (sentinelPath tdir) [] w2 = (some err, w3) →
        finishJob env job tdir w = (.panicked err, w3) ∧ w3.log = w2.log) := by
  refine ⟨?_, ?_, ?_, ?_, ?_, ?_, ?_, ?_, ?_⟩
  · intro ub tb page err w1 h
    exact ⟨by simp only [pageStep, h], rfl⟩
  · intro ub tb page body w1 err w2 h1 h2
    exact ⟨by simp only [pageStep, h1, h2], rfl⟩
  · intro ub tb page body w1 w2 err h1 h2 h3
    exact ⟨by simp only [pageStep, h1, h2, h3], rfl⟩
  · intro job hbad
    rw [processJob_invalid env job w hbad]
    exact ⟨rfl, rfl, rfl, rfl⟩
  · intro tdir u rest hbad
    rw [imageLoop_invalid env tdir u rest w hbad]
    exact ⟨rfl, rfl, rfl⟩
  · intro job tdir err h
    simp only [finishJob, h]
  · intro job tdir js err w1 h1 h2
    have hlog := osWriteFile_log env (jobFilePath tdir) js w
    rw [h2] at hlog
    exact ⟨by simp only [finishJob, h1, h2], hlog⟩
  · intro tdir u rest err w1 hv h
    have hlog := downloadImage_log env u (imageDest tdir (lastSegment u))
      (logToWindow ("[200] ".toList ++ lastSegment u) w)
    rw [h] at hlog
    exact ⟨by rw [imageLoop_valid env tdir u rest w hv, h], hlog⟩
  · intro job tdir js w1 w2 err w3 h1 h2 h3 h4
    have hlog := osWriteFile_log env (sentinelPath tdir) [] w2
    rw [h4] at hlog
    exact ⟨by simp only [finishJob, h1, h2, h3, h4], hlog⟩

/-- C9 as stated fails: when writing job.json fails the process panics and the
only line in the log is the progress line of the job, which carries no code;
and the line logged for an invalid job id carries no code either. -/
theorem C9_counterexample :
    (processJob jobFileFaultEnv sampleJob freshWorld).1 = .panicked "permission denied".toList ∧
    (processJob jobFileFaultEnv sampleJob freshWorld).2.log =
      ["Téléchargement de 11111111-1111-1111-1111-111111111111".toList] ∧
    (∀ line ∈ (processJob jobFileFaultEnv sampleJob freshWorld).2.log, hasCode line = false) ∧
    (processJob calmEnv badIDJob freshWorld).2.activeJob = false ∧
    (∀ line ∈ (processJob calmEnv badIDJob freshWorld).2.log, hasCode line = false) := by
  decide

theorem startsWith_lastPageFile (m : Nat) :
    startsWith ['j', 'o', 'b', 's', '/', 'l', 'a', 's', 't', '_', 'p', 'a', 'g', 'e', '_']
      (lastPageFile m) = true := by
  simp [lastPageFile, startsWith]

theorem lastPageFile_ne_job (m : Nat) (id rest : Str)
    (hid : jobIDPattern.matchString id = true) : lastPageFile m ≠ jobDir id ++ rest := by
  intro h
  have h1 := startsWith_lastPageFile m
  rw [h, startsWith_jobDir id rest hid] at h1
  exact absurd h1 (by simp)

/-- The second half of `processJob` leaves the page artifacts as they are. -/
theorem finishJob_page_frame (env : Env) (job : Job) (id : Str) (w : World) (m : Nat)
    (hid : jobIDPattern.matchString id = true) :
    (finishJob env job (jobDir id) w).2.fs (lastPageFile m) = w.fs (lastPageFile m) := by
  have hjf : lastPageFile m ≠ jobFilePath (jobDir id) := lastPageFile_ne_job m id _ hid
  have hsp : lastPageFile m ≠ sentinelPath (jobDir id) := lastPageFile_ne_job m id _ hid
  have himg : ∀ js, (imageLoop env (jobDir id) job.ImagePaths
      (w.stored (jobFilePath (jobDir id)) js)).2.fs (lastPageFile m) = w.fs (lastPageFile m) := by
    intro js
    rw [(imageLoop_frame env (jobDir id) job.ImagePaths _).2.2 (lastPageFile m)
      (fun u _ _ => lastPageFile_ne_job m id _ hid)]
    simp [setPath, hjf]
  rcases finishJob_cases env job (jobDir id) w with ⟨e, h⟩ | ⟨js, e, h⟩ | ⟨js, _, hc⟩
  · rw [h]
  · rw [h]; rfl
  · rcases hc with ⟨_, h⟩ | ⟨_, ⟨e, h⟩ | ⟨_, h⟩⟩
    · rw [h]; exact himg js
    · rw [h]; exact himg js
    · rw [h]
      simp only [stored_fs, setPath, hsp, if_false]
      exact himg js

/-- A call of `processJob` leaves the page artifacts as they are. -/
theorem processJob_page_frame (env : Env) (job : Job) (w : World) (m : Nat) :
    (processJob env job w).2.fs (lastPageFile m) = w.fs (lastPageFile m) := by
  cases hid : jobIDPattern.matchString job.ID with
  | false => rw [processJob_invalid env job w hid]
  | true =>
    rcases processJob_cases env job w hid with ⟨_, _, h⟩ | ⟨_, _, h⟩ | ⟨_, h⟩
    · rw [h]; rfl
    · rw [h, finishJob_page_frame env job job.ID _ m hid]; rfl
    · rw [h, finishJob_page_frame env job job.ID _ m hid, osMkdir_fs]
      · rfl
      · have := lastPageFile_ne_job m job.ID [] hid
        simpa using this

theorem jobLoop_page_frame (env : Env) (js : List Job) (w : World) (m : Nat) :
    (jobLoop env js w).2.fs (lastPageFile m) = w.fs (lastPageFile m) := by
  induction js generalizing w with
  | nil => rfl
  | cons j rest ih =>
    cases hw : w.activeJob with
    | false => rw [jobLoop_inactive env _ w hw]
    | true =>
      have hp := processJob_page_frame env j w m
      simp only [jobLoop, hw, if_true]
      rcases hj : processJob env j w with ⟨o, w1⟩
      rw [hj] at hp
      cases o with
      | returned => simp only; rw [ih w1]; exact hp
      | exited c => exact hp
      | panicked e => exact hp

/-! ## The page loop -/

theorem digitChar_value (d : Nat) (h : d < 10) : (digitChar d).toNat - 48 = d := by
  interval_cases d <;> rfl

theorem decValue_concat (s : Str) (c : Char) :
    decValue (s ++ [c]) = 10 * decValue s + (c.toNat - 48) := by
  simp [decValue]

theorem decValue_fmtIntFuel (fuel n : Nat) (h : n < fuel) : decValue (fmtIntFuel fuel n) = n := by
  induction fuel generalizing n with
  | zero => omega
  | succ fuel ih =>
    unfold fmtIntFuel
    by_cases hn : n < 10
    · rw [if_pos hn]
      simpa [decValue] using digitChar_value n hn
    · rw [if_neg hn, decValue_concat, ih (n / 10) (by omega),
        digitChar_value (n % 10) (Nat.mod_lt _ (by omega))]
      omega

theorem fmtInt_injective (a b : Nat) (h : fmtInt a = fmtInt b) : a = b := by
  have ha := decValue_fmtIntFuel (a + 1) a (by omega)
  have hb := decValue_fmtIntFuel (b + 1) b (by omega)
  unfold fmtInt at h
  rw [h] at ha
  omega

theorem lastPageFile_injective (a b : Nat) (h : lastPageFile a = lastPageFile b) : a = b := by
  unfold lastPageFile at h
  rw [List.append_assoc, List.append_assoc] at h
  exact fmtInt_injective a b (List.append_cancel_right (List.append_cancel_left h))

theorem lastPageFile_isPage (page : Nat) (d : Bytes) (ok : Bool) :
    isPageEvent (.writeFile (lastPageFile page) d ok) = true := by
  simp [isPageEvent, lastPageFile, startsWith]

/-- The ways `fetchJobs` ends. -/
theorem fetchJobs_spec (env : Env) (uid tok : Str) (page : Nat) (w : World) :
    (w.activeJob = false ∧ fetchJobs env uid tok page w = (.ok [], w)) ∨
    (w.activeJob = true ∧ ∃ d, fetchJobs env uid tok page w =
      (.ok d, w.emit (.listJobs (listingURL env.jobsType uid page) page (some d)))) ∨
    (w.activeJob = true ∧ ∃ e line, fetchJobs env uid tok page w = (.error e, logToWindow line w)) ∨
    (w.activeJob = true ∧ ∃ e line, fetchJobs env uid tok page w =
      (.error e, logToWindow line
        (w.emit (.listJobs (listingURL env.jobsType uid page) page none)))) := by
  unfold fetchJobs
  cases hw : w.activeJob with
  | false => exact Or.inl ⟨rfl, by simp⟩
  | true =>
    right
    simp only [if_true]
    cases env.listing w.tick (listingURL env.jobsType uid page) tok with
    | requestError e => exact Or.inr (Or.inl ⟨trivial, e, _, rfl⟩)
    | transportError e => exact Or.inr (Or.inr ⟨trivial, e, _, rfl⟩)
    | bodyError e => exact Or.inr (Or.inr ⟨trivial, e, _, rfl⟩)
    | body d => exact Or.inl ⟨trivial, d, rfl⟩

/-- An iteration of the page loop that goes on to the next page with the flag
still set has fetched a body, stored it, decoded it and called `processJob` on
every job of the page. -/
theorem pageStep_continue (env : Env) (ub tb : Bytes) (page : Nat) (w w1 : World)
    (h : pageStep env ub tb page w = (none, w1)) (hflag : w1.activeJob = true) :
    w.activeJob = true ∧
    ∃ (body : Bytes) (js : List Job) (J : List Event),
      jsonUnmarshal env body = .ok js ∧
      w1.trace = w.trace ++
        (.listJobs (listingURL env.jobsType (trimSpace (env.text ub)) page) page (some body) ::
          .writeFile (lastPageFile page) body true :: J) ∧
      (∀ e ∈ J, isPageEvent e = false) ∧
      w1.calls = w.calls ++ js ∧
      w1.fs (lastPageFile page) = some (.file body) ∧
      ∀ m, m ≠ page → w1.fs (lastPageFile m) = w.fs (lastPageFile m) := by
  unfold pageStep at h
  rcases hf : fetchJobs env (trimSpace (env.text ub)) (trimSpace (env.text tb)) page w with ⟨r, wa⟩
  rw [hf] at h
  cases r with
  | error e => simp at h
  | ok body =>
    simp only at h
    rcases hwr : osWriteFile env (lastPageFile page) body wa with ⟨r2, wb⟩
    rw [hwr] at h
    cases r2 with
    | some e => simp at h
    | none =>
      simp only at h
      cases hd : jsonUnmarshal env body with
      | error e => rw [hd] at h; simp at h
      | ok js =>
        rw [hd] at h
        simp only at h
        rcases hj : jobLoop env js wb with ⟨o, wc⟩
        rw [hj] at h
        cases o with
        | exited c => simp at h
        | panicked e => simp at h
        | returned =>
          simp only [Prod.mk.injEq, true_and] at h
          subst h
          obtain ⟨J, hJ, hJmem, hJflag⟩ := jobLoop_spec env js wb
          rw [hj] at hJ hJflag
          obtain ⟨hwb, hcalls⟩ := hJflag hflag
          have hwbeq : wb = wa.stored (lastPageFile page) body := by
            rcases osWriteFile_spec env (lastPageFile page) body wa with ⟨_, h2⟩ | ⟨e, h2⟩
            · rw [h2] at hwr
              exact (Prod.mk.inj hwr).2.symm
            · rw [h2] at hwr
              exact absurd (Prod.mk.inj hwr).1 (by simp)
          have hwa : wa.activeJob = true := by
            rw [hwbeq] at hwb
            exact hwb
          rcases fetchJobs_spec env (trimSpace (env.text ub)) (trimSpace (env.text tb)) page w
            with ⟨h0, h1⟩ | ⟨h0, d, h1⟩ | ⟨_, e, l, h1⟩ | ⟨_, e, l, h1⟩
          · rw [h1] at hf
            have := (Prod.mk.inj hf).2
            rw [← this] at hwa
            rw [h0] at hwa
            exact absurd hwa (by simp)
          · rw [h1] at hf
            obtain ⟨hb, hwaeq⟩ := Prod.mk.inj hf
            have hbody : d = body := by injection hb
            subst hbody
            have hfs := jobLoop_page_frame env js wb
            rw [hj] at hfs
            refine ⟨h0, d, js, J, hd, ?_, hJmem, ?_, ?_, ?_⟩
            · rw [hJ, hwbeq, ← hwaeq]
              simp
            · rw [hcalls rfl, hwbeq, ← hwaeq]
              simp
            · rw [hfs page, hwbeq]
              simp [setPath]
            · intro m hm
              rw [hfs m, hwbeq, ← hwaeq]
              have hne : lastPageFile m ≠ lastPageFile page :=
                fun he => hm (lastPageFile_injective _ _ he)
              simp [setPath, hne]
          · rw [h1] at hf
            exact absurd (Prod.mk.inj hf).1 (by simp)
          · rw [h1] at hf
            exact absurd (Prod.mk.inj hf).1 (by simp)

theorem pageLoop_split (env : Env) (ub tb : Bytes) (a b page : Nat) (w w1 : World)
    (h : pageLoop env ub tb a page w = (none, w1)) :
    pageLoop env ub tb (a + b) page w = pageLoop env ub tb b (page + a) w1 := by
  induction a generalizing page w with
  | zero =>
    simp only [pageLoop, Prod.mk.injEq, true_and] at h
    subst h
    simp
  | succ a ih =>
    have hab : a + 1 + b = (a + b) + 1 := by omega
    rw [hab]
    simp only [pageLoop] at h ⊢
    rcases hs : pageStep env ub tb page w with ⟨r, w2⟩
    rw [hs] at h
    cases r with
    | some o => simp at h
    | none =>
      simp only at h ⊢
      rw [ih (page + 1) w2 h]
      congr 1
      omega

theorem pageTrace_writes (jt uid : Str) (pages : List (Bytes × List Job)) (page : Nat)
    (q : Str) (d : Bytes) (ok : Bool) (h : Event.writeFile q d ok ∈ pageTrace jt uid page pages) :
    ∃ i, page ≤ i ∧ i < page + pages.length ∧ q = lastPageFile i := by
  induction pages generalizing page with
  | nil => simp [pageTrace] at h
  | cons x rest ih =>
    simp only [pageTrace, List.mem_cons] at h
    rcases h with h | h | h
    · exact absurd h (by simp)
    · injection h with hq _ _
      exact ⟨page, le_refl _, by simp, hq⟩
    · obtain ⟨i, h1, h2, h3⟩ := ih (page + 1) h
      exact ⟨i, by omega, by simp only [List.length_cons]; omega, h3⟩

theorem pageTrace_requests (jt uid : Str) (pages : List (Bytes × List Job)) (page : Nat)
    (url : Str) (n : Nat) (b : Option Bytes)
    (h : Event.listJobs url n b ∈ pageTrace jt uid page pages) :
    page ≤ n ∧ n < page + pages.length := by
  induction pages generalizing page with
  | nil => simp [pageTrace] at h
  | cons x rest ih =>
    simp only [pageTrace, List.mem_cons] at h
    rcases h with h | h | h
    · injection h with _ hn _
      subst hn
      exact ⟨le_refl _, by simp⟩
    · exact absurd h (by simp)
    · obtain ⟨h1, h2⟩ := ih (page + 1) h
      exact ⟨by omega, by simp only [List.length_cons]; omega⟩

theorem pageTrace_mem (jt uid : Str) (pages : List (Bytes × List Job)) (page i : Nat)
    (b : Bytes) (js : List Job) (h : pages[i]? = some (b, js)) :
    Event.listJobs (listingURL jt uid (page + i)) (page + i) (some b) ∈
        pageTrace jt uid page pages ∧
      Event.writeFile (lastPageFile (page + i)) b true ∈ pageTrace jt uid page pages := by
  induction pages generalizing page i with
  | nil => simp at h
  | cons x rest ih =>
    cases i with
    | zero =>
      simp only [List.getElem?_cons_zero, Option.some.injEq] at h
      subst h
      simp [pageTrace]
    | succ i =>
      simp only [List.getElem?_cons_succ] at h
      obtain ⟨h1, h2⟩ := ih (page + 1) i h
      have he : page + 1 + i = page + (i + 1) := by omega
      rw [he] at h1 h2
      simp only [pageTrace, List.mem_cons]
      exact ⟨Or.inr (Or.inr h1), Or.inr (Or.inr h2)⟩

/-- When `n` iterations of the page loop all go on to the next page and leave
the flag set, the requests and page artifacts issued are those of the pages
`page .. page+n-1` in order, each body stored as it came, and `processJob` was
called on every job of those pages in page order and listing order. -/
theorem pageLoop_done (env : Env) (ub tb : Bytes) (n page : Nat) (w w1 : World)
    (h : pageLoop env ub tb n page w = (none, w1)) (hflag : w1.activeJob = true) :
    w.activeJob = true ∧
    ∃ (pages : List (Bytes × List Job)) (T : List Event),
      pages.length = n ∧
      (∀ x ∈ pages, jsonUnmarshal env x.1 = .ok x.2) ∧
      w1.trace = w.trace ++ T ∧
      T.filter isPageEvent = pageTrace env.jobsType (trimSpace (env.text ub)) page pages ∧
      w1.calls = w.calls ++ pages.flatMap (fun x => x.2) ∧
      (∀ i b js, pages[i]? = some (b, js) → w1.fs (lastPageFile (page + i)) = some (.file b)) ∧
      (∀ m, m < page → w1.fs (lastPageFile m) = w.fs (lastPageFile m)) := by
  induction n generalizing page w with
  | zero =>
    simp only [pageLoop, Prod.mk.injEq, true_and] at h
    subst h
    exact ⟨hflag, [], [], rfl, by simp, by simp, rfl, by simp, by simp, fun _ _ => rfl⟩
  | succ n ih =>
    simp only [pageLoop] at h
    rcases hs : pageStep env ub tb page w with ⟨r, w2⟩
    rw [hs] at h
    cases r with
    | some o => simp at h
    | none =>
      simp only at h
      obtain ⟨hw2, pages, T, hlen, hdec, hT, hfil, hcalls, hstore, hkeep⟩ := ih (page + 1) w2 h
      obtain ⟨hw, body, js, J, hbody, hJ, hJmem, hJcalls, hJfs, hJkeep⟩ :=
        pageStep_continue env ub tb page w w2 hs hw2
      refine ⟨hw, (body, js) :: pages,
        .listJobs (listingURL env.jobsType (trimSpace (env.text ub)) page) page (some body) ::
          .writeFile (lastPageFile page) body true :: (J ++ T), by simp [hlen], ?_, ?_, ?_, ?_,
        ?_, ?_⟩
      · intro x hx
        rcases List.mem_cons.mp hx with rfl | hx
        · exact hbody
        · exact hdec x hx
      · rw [hT, hJ]
        simp
      · have hJnil : J.filter isPageEvent = [] := by
          rw [List.filter_eq_nil_iff]
          intro e he
          rw [hJmem e he]
          simp
        rw [List.filter_cons_of_pos (by rfl), List.filter_cons_of_pos
          (lastPageFile_isPage page body true), List.filter_append, hJnil, hfil]
        rfl
      · rw [hcalls, hJcalls]
        simp
      · intro i b js2 hi
        cases i with
        | zero =>
          simp only [List.getElem?_cons_zero, Option.some.injEq, Prod.mk.injEq] at hi
          rw [Nat.add_zero, hkeep page (by omega), hJfs, hi.1]
        | succ i =>
          simp only [List.getElem?_cons_succ] at hi
          have := hstore i b js2 hi
          have he : page + 1 + i = page + (i + 1) := by omega
          rw [he] at this
          exact this
      · intro m hm
        rw [hkeep m (by omega), hJkeep m (by omega)]

theorem osMkdirAll_trace (env : Env) (p : Str) (w : World) :
    (osMkdirAll env p w).trace = w.trace ++ [.mkdirAll p] := by
  unfold osMkdirAll; split <;> rfl

theorem osMkdirAll_calls (env : Env) (p : Str) (w : World) :
    (osMkdirAll env p w).calls = w.calls := by
  unfold osMkdirAll; split <;> rfl

/-- C6 (amended): for every k in 1..200, when the run starts with the flag set
and both credential files readable, the pages 1..k-1 are each fetched, stored,
decoded and their jobs processed with the process still running and the flag
still set, and the fetch of page k fails, then the run returns with the line
`[803] <error>` last in the log; the requests and page artifacts it issued are
exactly those of the pages 1..k-1 in order, each artifact written with the
fetched bytes and still holding them at the end, followed by at most the failed
request for page k; processJob was called on every job of those pages in page
order and listing order; no artifact of page k or a later page was written and
no page after k was requested. -/
theorem C6_page_loop_failure (env : Env) (w : World) (k : Nat) (ub tb : Bytes)
    (wk wf : World) (err : Str)
    (hk1 : 1 ≤ k) (hk2 : k ≤ 200)
    (hflag : w.activeJob = true)
    (huid : w.fs userIDFile = some (.file ub))
    (htok : w.fs sessionTokenFile = some (.file tb))
    (hpre : pageLoop env ub tb (k - 1) 1 (loopStart env w) = (none, wk))
    (hact : wk.activeJob = true)
    (hfail : fetchJobs env (trimSpace (env.text ub)) (trimSpace (env.text tb)) k wk =
      (.error err, wf)) :
    recentJobs env w = (.returned, logToWindow ("[803] ".toList ++ err) wf) ∧
    (logToWindow ("[803] ".toList ++ err) wf).log.getLast? = some ("[803] ".toList ++ err) ∧
    ∃ (pages : List (Bytes × List Job)) (T F : List Event),
      pages.length = k - 1 ∧
      (∀ x ∈ pages, jsonUnmarshal env x.1 = .ok x.2) ∧
      wf.trace = w.trace ++ T ∧
      T.filter isPageEvent =
        pageTrace env.jobsType (trimSpace (env.text ub)) 1 pages ++ F ∧
      (F = [] ∨
        F = [.listJobs (listingURL env.jobsType (trimSpace (env.text ub)) k) k none]) ∧
      wf.calls = w.calls ++ pages.flatMap (fun x => x.2) ∧
      (∀ i b js, pages[i]? = some (b, js) →
        Event.writeFile (lastPageFile (i + 1)) b true ∈ T ∧
        wf.fs (lastPageFile (i + 1)) = some (.file b)) ∧
      (∀ n d ok, k ≤ n → Event.writeFile (lastPageFile n) d ok ∉ T) ∧
      (∀ n url b, k < n → Event.listJobs url n b ∉ T) := by
  unfold loopStart at hpre
  obtain ⟨m, hm⟩ : ∃ m, 200 = (k - 1) + (m + 1) := ⟨200 - k, by omega⟩
  have hk : 1 + (k - 1) = k := by omega
  have hloop : pageLoop env ub tb 200 1
      (osMkdirAll env jobsDir ((w.emit (.readFile userIDFile)).emit
        (.readFile sessionTokenFile))) =
      (some .returned, logToWindow ("[803] ".toList ++ err) wf) := by
    rw [hm, pageLoop_split env ub tb (k - 1) (m + 1) 1 _ wk hpre, hk]
    simp only [pageLoop, pageStep, hfail]
  refine ⟨?_, by simp, ?_⟩
  · simp only [recentJobs, hflag, osReadFile, huid, htok, emit_fs]
    rw [hloop]
    simp
  obtain ⟨_, pages, T, hlen, hdec, hT, hfil, hcalls, hstore, _⟩ :=
    pageLoop_done env ub tb (k - 1) 1 _ wk hpre hact
  rw [osMkdirAll_trace] at hT
  rw [osMkdirAll_calls] at hcalls
  simp only [emit_trace, emit_calls, List.append_assoc] at hT hcalls
  obtain ⟨F, hF, hwf, hwfc, hwfs⟩ : ∃ F, (F = [] ∨
      F = [.listJobs (listingURL env.jobsType (trimSpace (env.text ub)) k) k none]) ∧
      wf.trace = wk.trace ++ F ∧ wf.calls = wk.calls ∧ wf.fs = wk.fs := by
    rcases fetchJobs_spec env (trimSpace (env.text ub)) (trimSpace (env.text tb)) k wk
      with ⟨h0, _⟩ | ⟨_, d, h1⟩ | ⟨_, e, l, h1⟩ | ⟨_, e, l, h1⟩
    · rw [hact] at h0
      exact absurd h0 (by simp)
    · rw [h1] at hfail
      exact absurd (Prod.mk.inj hfail).1 (by simp)
    · rw [h1] at hfail
      have := (Prod.mk.inj hfail).2
      exact ⟨[], Or.inl rfl, by rw [← this]; simp, by rw [← this]; rfl, by rw [← this]; rfl⟩
    · rw [h1] at hfail
      have := (Prod.mk.inj hfail).2
      exact ⟨_, Or.inr rfl, by rw [← this]; simp, by rw [← this]; rfl, by rw [← this]; rfl⟩
  have hFpage : F.filter isPageEvent = F := by
    rcases hF with rfl | rfl <;> rfl
  have hFnow : ∀ q d ok, Event.writeFile q d ok ∉ F := by
    intro q d ok
    rcases hF with rfl | rfl <;> simp
  have hFreq : ∀ url n b, Event.listJobs url n b ∈ F → n = k := by
    intro url n b hin
    rcases hF with rfl | rfl
    · simp at hin
    · simp only [List.mem_singleton] at hin
      injection hin
  have htotal : ([Event.readFile userIDFile, Event.readFile sessionTokenFile, Event.mkdirAll jobsDir] ++
      T ++ F).filter isPageEvent =
      pageTrace env.jobsType (trimSpace (env.text ub)) 1 pages ++ F := by
    rw [List.filter_append, List.filter_append, hfil, hFpage]
    rfl
  refine ⟨pages, [Event.readFile userIDFile, Event.readFile sessionTokenFile, Event.mkdirAll jobsDir] ++
    T ++ F, F, hlen, hdec, ?_, htotal, hF, by rw [hwfc, hcalls], ?_, ?_, ?_⟩
  · rw [hwf, hT]
    simp
  · intro i b js hi
    have h1 := (pageTrace_mem env.jobsType (trimSpace (env.text ub)) pages 1 i b js hi).2
    have h2 : Event.writeFile (lastPageFile (1 + i)) b true ∈
        ([Event.readFile userIDFile, Event.readFile sessionTokenFile, Event.mkdirAll jobsDir] ++
          T ++ F).filter isPageEvent := by
      rw [htotal]
      exact List.mem_append_left _ h1
    rw [Nat.add_comm] at h2
    refine ⟨(List.mem_filter.mp h2).1, ?_⟩
    rw [hwfs, Nat.add_comm]
    exact hstore i b js hi
  · intro n d ok hn hin
    have h2 : Event.writeFile (lastPageFile n) d ok ∈
        ([Event.readFile userIDFile, Event.readFile sessionTokenFile, Event.mkdirAll jobsDir] ++
          T ++ F).filter isPageEvent :=
      List.mem_filter.mpr ⟨hin, lastPageFile_isPage n d ok⟩
    rw [htotal] at h2
    rcases List.mem_append.mp h2 with h3 | h3
    · obtain ⟨i, _, hi2, hi3⟩ := pageTrace_writes _ _ _ _ _ _ _ h3
      have := lastPageFile_injective _ _ hi3
      omega
    · exact hFnow _ _ _ h3
  · intro n url b hn hin
    have h2 : Event.listJobs url n b ∈
        ([Event.readFile userIDFile, Event.readFile sessionTokenFile, Event.mkdirAll jobsDir] ++
          T ++ F).filter isPageEvent :=
      List.mem_filter.mpr ⟨hin, rfl⟩
    rw [htotal] at h2
    rcases List.mem_append.mp h2 with h3 | h3
    · obtain ⟨_, hi2⟩ := pageTrace_requests _ _ _ _ _ _ _ h3
      omega
    · have := hFreq _ _ _ h3
      omega

/-- C6, at a run in which every page holds the sample job and the fetch of
page 3 fails. -/
theorem C6_page_loop_failure_witness :
    (recentJobs thirdPageFailEnv readyWorld).1 = .returned ∧
    (recentJobs thirdPageFailEnv readyWorld).2.log.getLast? = some "[803] timeout".toList :=
  let h := C6_page_loop_failure thirdPageFailEnv readyWorld 3 [117] [116]
    (pageLoop thirdPageFailEnv [117] [116] 2 1 (loopStart thirdPageFailEnv readyWorld)).2
    (fetchJobs thirdPageFailEnv [] [] 3
      (pageLoop thirdPageFailEnv [117] [116] 2 1 (loopStart thirdPageFailEnv readyWorld)).2).2
    "timeout".toList (by decide) (by decide) (by decide) (by decide) (by decide)
    (Prod.ext (by decide) rfl) (by decide) (Prod.ext rfl rfl)
  ⟨congrArg Prod.fst h.1, (congrArg (fun r => r.2.log.getLast?) h.1).trans h.2.1⟩

/-- C6 as stated fails: the fetch succeeds with a decodable page for page 1 and
fails for page 2, but the one job of page 1 has an image name that fails the
check, so the process exits while page 1 is processed: page 2 is never
requested and no line with a code is logged. -/
theorem C6_counterexample :
    (∀ (t : Nat) (tok : Str),
      exitEnv.listing t (listingURL "new".toList [] 1) tok = .body [91, 93]) ∧
    (∀ (t : Nat) (tok : Str),
      exitEnv.listing t (listingURL "new".toList [] 2) tok =
        .transportError "timeout".toList) ∧
    jsonUnmarshal exitEnv [91, 93] = .ok [badNameJob] ∧
    (recentJobs exitEnv readyWorld).1 = .exited 1 ∧
    (∀ line ∈ (recentJobs exitEnv readyWorld).2.log, hasCode line = false) ∧
    (recentJobs exitEnv readyWorld).2.trace =
      [.readFile userIDFile, .readFile sessionTokenFile, .mkdirAll jobsDir,
       .listJobs (listingURL "new".toList [] 1) 1 (some [91, 93]),
       .writeFile (lastPageFile 1) [91, 93] true,
       .stat (jobDir sampleID), .mkdir (jobDir sampleID),
       .writeFile (jobFilePath (jobDir sampleID)) [123, 125] true] := by
  refine ⟨fun _ _ => rfl, fun _ _ => rfl, rfl, by decide, by decide, by decide⟩

theorem fetchJobs_flag_calls (env : Env) (uid tok : Str) (page : Nat) (w : World) :
    (fetchJobs env uid tok page w).2.activeJob = w.activeJob ∧
      (fetchJobs env uid tok page w).2.calls = w.calls := by
  rcases fetchJobs_spec env uid tok page w with ⟨_, h⟩ | ⟨_, d, h⟩ | ⟨_, e, l, h⟩ | ⟨_, e, l, h⟩ <;>
    rw [h] <;> exact ⟨rfl, rfl⟩

/-- The job loop records the jobs it calls `processJob` on, and the flag is
set afterwards exactly when it was set before and all of them have an
identifier that passes the check. -/
theorem jobLoop_flag (env : Env) (js : List Job) (w : World) :
    ∃ c, (jobLoop env js w).2.calls = w.calls ++ c ∧
      (jobLoop env js w).2.activeJob = (w.activeJob && allValid c) := by
  induction js generalizing w with
  | nil => exact ⟨[], by simp [jobLoop], by simp [jobLoop, allValid]⟩
  | cons j rest ih =>
    cases hw : w.activeJob with
    | false =>
      rw [jobLoop_inactive env _ w hw]
      exact ⟨[], by simp, by simp [hw]⟩
    | true =>
      obtain ⟨hcalls, hflag⟩ := processJob_flag_calls env j w
      simp only [jobLoop, hw, if_true]
      rcases hp : processJob env j w with ⟨o, w1⟩
      rw [hp] at hcalls hflag
      simp only [hw, Bool.true_and] at hcalls hflag
      cases o with
      | returned =>
        obtain ⟨c, hc, hf⟩ := ih w1
        refine ⟨j :: c, by rw [hc, hcalls]; simp, ?_⟩
        rw [hf, hflag]
        simp [allValid]
      | exited x => exact ⟨[j], hcalls, by simp [hflag, allValid]⟩
      | panicked x => exact ⟨[j], hcalls, by simp [hflag, allValid]⟩

theorem pageStep_flag (env : Env) (ub tb : Bytes) (page : Nat) (w : World) :
    ∃ c, (pageStep env ub tb page w).2.calls = w.calls ++ c ∧
      (pageStep env ub tb page w).2.activeJob = (w.activeJob && allValid c) := by
  obtain ⟨hfa, hfc⟩ :=
    fetchJobs_flag_calls env (trimSpace (env.text ub)) (trimSpace (env.text tb)) page w
  unfold pageStep
  rcases hf : fetchJobs env (trimSpace (env.text ub)) (trimSpace (env.text tb)) page w with ⟨r, wa⟩
  rw [hf] at hfa hfc
  simp only at hfa hfc
  cases r with
  | error e => exact ⟨[], by simp [hfc], by simp [hfa, allValid]⟩
  | ok body =>
    simp only
    have hwa := osWriteFile_activeJob env (lastPageFile page) body wa
    have hwc := osWriteFile_calls env (lastPageFile page) body wa
    rcases hwr : osWriteFile env (lastPageFile page) body wa with ⟨r2, wb⟩
    rw [hwr] at hwa hwc
    simp only at hwa hwc
    cases r2 with
    | some e => exact ⟨[], by simp [hwc, hfc], by simp [hwa, hfa, allValid]⟩
    | none =>
      simp only
      cases jsonUnmarshal env body with
      | error e => exact ⟨[], by simp [hwc, hfc], by simp [hwa, hfa, allValid]⟩
      | ok js =>
        simp only
        obtain ⟨c, hc, hfl⟩ := jobLoop_flag env js wb
        rcases hj : jobLoop env js wb with ⟨o, wc⟩
        rw [hj] at hc hfl
        simp only at hc hfl
        cases o <;> exact ⟨c, by simp [hc, hwc, hfc], by simp [hfl, hwa, hfa]⟩

theorem pageLoop_flag (env : Env) (ub tb : Bytes) (n page : Nat) (w : World) :
    ∃ c, (pageLoop env ub tb n page w).2.calls = w.calls ++ c ∧
      (pageLoop env ub tb n page w).2.activeJob = (w.activeJob && allValid c) := by
  induction n generalizing page w with
  | zero => exact ⟨[], by simp [pageLoop], by simp [pageLoop, allValid]⟩
  | succ n ih =>
    obtain ⟨c1, hc1, hf1⟩ := pageStep_flag env ub tb page w
    simp only [pageLoop]
    rcases hs : pageStep env ub tb page w with ⟨r, w1⟩
    rw [hs] at hc1 hf1
    simp only at hc1 hf1
    cases r with
    | some o => exact ⟨c1, hc1, hf1⟩
    | none =>
      obtain ⟨c2, hc2, hf2⟩ := ih (page + 1) w1
      refine ⟨c1 ++ c2, by simp only; rw [hc2, hc1, List.append_assoc], ?_⟩
      simp only
      rw [hf2, hf1]
      simp [allValid, Bool.and_assoc]

/-- A sync run records the jobs it calls `processJob` on, and the flag is set
afterwards exactly when it was set before and all of them have an identifier
that passes the check. -/
theorem recentJobs_flag (env : Env) (w : World) :
    ∃ c, (recentJobs env w).2.calls = w.calls ++ c ∧
      (recentJobs env w).2.activeJob = (w.activeJob && allValid c) := by
  cases hw : w.activeJob with
  | false =>
    rw [recentJobs_inactive env w hw]
    exact ⟨[], by simp, by simp [hw]⟩
  | true =>
    simp only [recentJobs, hw, osReadFile, Bool.true_eq_false, if_false]
    cases w.fs userIDFile with
    | none => exact ⟨[], by simp, by simp [hw, allValid]⟩
    | some nd =>
      cases nd with
      | dir => exact ⟨[], by simp, by simp [hw, allValid]⟩
      | file ub =>
        simp only [emit_fs]
        cases w.fs sessionTokenFile with
        | none => exact ⟨[], by simp, by simp [hw, allValid]⟩
        | some nd2 =>
          cases nd2 with
          | dir => exact ⟨[], by simp, by simp [hw, allValid]⟩
          | file tb =>
            simp only
            obtain ⟨c, hc, hf⟩ := pageLoop_flag env ub tb 200 1
              (osMkdirAll env jobsDir
                ((w.emit (.readFile userIDFile)).emit (.readFile sessionTokenFile)))
            rw [osMkdirAll_calls] at hc
            have hmk : (osMkdirAll env jobsDir
                ((w.emit (.readFile userIDFile)).emit (.readFile sessionTokenFile))).activeJob =
                w.activeJob := by
              unfold osMkdirAll; split <;> rfl
            rw [hmk, hw] at hf
            rcases hl : pageLoop env ub tb 200 1
              (osMkdirAll env jobsDir
                ((w.emit (.readFile userIDFile)).emit (.readFile sessionTokenFile))) with ⟨r, w3⟩
            rw [hl] at hc hf
            simp only [emit_calls] at hc hf
            cases r <;> exact ⟨c, hc, hf⟩

/-- C8: a sync run started with the run-state flag cleared returns at once and
leaves the world exactly as it was, so it reads no credential, creates no
directory, fetches no page, writes no file, logs nothing and leaves the flag
cleared; the same holds for any number of timer-triggered runs in a row;
processJob on a job with an invalid id clears the flag; and a run in which
processJob met a job with an invalid id ends with the flag cleared, after which
any number of runs leave the world as that run left it. -/
theorem C8_kill_switch (env : Env) (w : World) (n : Nat) (h : w.activeJob = false) :
    recentJobs env w = (.returned, w) ∧
    timerRuns env n w = (.returned, w) ∧
    (∀ (env0 : Env) (job : Job) (w0 : World), jobIDPattern.matchString job.ID = false →
      (processJob env0 job w0).2.activeJob = false ∧
      timerRuns env n (processJob env0 job w0).2 = (.returned, (processJob env0 job w0).2)) ∧
    (∀ (env0 : Env) (w0 : World), ∃ c, (recentJobs env0 w0).2.calls = w0.calls ++ c ∧
      ((∃ j ∈ c, jobIDPattern.matchString j.ID = false) →
        (recentJobs env0 w0).2.activeJob = false ∧
        timerRuns env n (recentJobs env0 w0).2 = (.returned, (recentJobs env0 w0).2))) := by
  refine ⟨recentJobs_inactive env w h, timerRuns_inactive env n w h, ?_, ?_⟩
  · intro env0 job w0 hbad
    have hflag : (processJob env0 job w0).2.activeJob = false := by
      rw [(processJob_flag_calls env0 job w0).2, hbad]
      simp
    exact ⟨hflag, timerRuns_inactive env n _ hflag⟩
  · intro env0 w0
    obtain ⟨c, hc, hf⟩ := recentJobs_flag env0 w0
    refine ⟨c, hc, ?_⟩
    rintro ⟨j, hj, hbad⟩
    have hflag : (recentJobs env0 w0).2.activeJob = false := by
      rw [hf]
      have : allValid c = false := by
        simp only [allValid, List.all_eq_false]
        exact ⟨j, hj, by simp [hbad]⟩
      simp [this]
    exact ⟨hflag, timerRuns_inactive env n _ hflag⟩

/-- C8, at three runs in the world the job with an invalid id leaves behind. -/
theorem C8_kill_switch_witness :
    recentJobs calmEnv (processJob calmEnv badIDJob freshWorld).2 =
        (.returned, (processJob calmEnv badIDJob freshWorld).2) ∧
      timerRuns calmEnv 3 (processJob calmEnv badIDJob freshWorld).2 =
        (.returned, (processJob calmEnv badIDJob freshWorld).2) :=
  let h := C8_kill_switch calmEnv (processJob calmEnv badIDJob freshWorld).2 3 (by decide)
  ⟨h.1, h.2.1⟩

end MJ
